import Mathlib

/-!
Snack-Shop invoice form: the handlers of `mainwindow.cpp`.

A shallow embedding of the four slots of `MainWindow`
(`on_addItemButton_clicked`, `on_removeItemButton_clicked`,
`on_SaveInoviceButton_clicked`, `on_loadLastInvoice_clicked`) together with the
parts of the UI toolkit and of the database engine that they call.

* The widgets are plain data: the customer line edit is a text, the date edit a
  date with its permitted range, the items table a list of rows of three optional
  cells (`none` is a null `QTableWidgetItem*`).
* Texts are converted as Qt does in the C locale: `trimmed`, `toInt`, `toDouble`
  (to IEEE-754 binary64, with NaN and the infinities), `QString::number`.
* The database connection is a record of the two tables with their
  `AUTOINCREMENT` counters, the snapshot of an open transaction, and the list of
  the calls made on the connection. `db.rollback()` restores the snapshot.
* What the handlers cannot see from the program text (whether a database call
  succeeds, the current date, the value of a flag that was never assigned) is an
  explicit environment argument.

The definitions come first; the theorems follow, grouped by slot. The theorems whose
doc comment starts with `C1` to `C10` are the properties of the specification.
-/

set_option autoImplicit false

namespace SnackShop

/-! ## Text -/

/-- A `QString`, as its sequence of characters. -/
abbrev QString := List Char

/-- Qt function `QChar::isSpace`: the ASCII white space `\t \n \v \f \r` and the
blank, U+0085, U+00A0 and the Unicode separators (classes Zs, Zl, Zp). -/
def isSpace (c : Char) : Bool :=
  let n := c.toNat
  (9 ≤ n && n ≤ 13) || n == 32 || n == 0x85 || n == 0xA0 || n == 0x1680 ||
  (0x2000 ≤ n && n ≤ 0x200A) || n == 0x2028 || n == 0x2029 || n == 0x202F ||
  n == 0x205F || n == 0x3000

/-- Drop the white space at the end of a text. -/
def trimEnd : QString → QString
  | [] => []
  | c :: cs =>
    match trimEnd cs with
    | [] => if isSpace c then [] else [c]
    | r => c :: r

/-- Qt function `QString::trimmed`: the text without its leading and trailing white
space. -/
def trimmed (s : QString) : QString :=
  trimEnd (s.dropWhile isSpace)

/-! ## Integers as text -/

/-- The value of a decimal digit character. -/
def digitVal (c : Char) : Option Nat :=
  if 48 ≤ c.toNat ∧ c.toNat ≤ 57 then some (c.toNat - 48) else none

/-- The character of a decimal digit. -/
def digitChar : Nat → Char
  | 0 => '0' | 1 => '1' | 2 => '2' | 3 => '3' | 4 => '4'
  | 5 => '5' | 6 => '6' | 7 => '7' | 8 => '8' | _ => '9'

/-- Reads a run of decimal digits from the left: the value so far `acc`, the number
of digits read so far `cnt`; returns value, count and the unread rest. -/
def spanDigits : QString → Nat → Nat → Nat × Nat × QString
  | [], acc, cnt => (acc, cnt, [])
  | c :: cs, acc, cnt =>
    match digitVal c with
    | some d => spanDigits cs (acc * 10 + d) (cnt + 1)
    | none => (acc, cnt, c :: cs)

/-- The decimal digits of `n`, most significant first, pushed in front of `acc`;
`fuel` bounds the number of digits. -/
def natDigitsAux : Nat → Nat → QString → QString
  | 0, _, acc => acc
  | fuel + 1, n, acc =>
    if n < 10 then digitChar n :: acc
    else natDigitsAux fuel (n / 10) (digitChar (n % 10) :: acc)

/-- The decimal text of a natural number. -/
def natDigits (n : Nat) : QString := natDigitsAux (n + 1) n []

/-- Qt function `QString::number(int)`: decimal text, with a leading `-` for a
negative value. -/
def numberInt (n : Int) : QString :=
  if n < 0 then '-' :: natDigits n.natAbs else natDigits n.natAbs

/-- Splits an optional leading sign off a text: `true` for `-`. -/
def splitSign : QString → Bool × QString
  | '-' :: r => (true, r)
  | '+' :: r => (false, r)
  | r => (false, r)

/-- Qt function `QString::toInt(&ok)` in base 10, as `(ok, value)`: surrounding white
space is skipped, then an optional sign and at least one digit must make up the whole
text, and the value must fit a 32-bit `int`; otherwise `ok` is false and the result
is 0. -/
def toInt (s : QString) : Bool × Int :=
  let (neg, body) := splitSign (trimmed s)
  match spanDigits body 0 0 with
  | (v, cnt, []) =>
    let i : Int := if neg then -(v : Int) else (v : Int)
    if cnt = 0 then (false, 0)
    else if -2147483648 ≤ i ∧ i ≤ 2147483647 then (true, i) else (false, 0)
  | _ => (false, 0)

/-! ## Doubles -/

/-- An IEEE-754 binary64 value: not-a-number, an infinity, or the finite value
`± m · 2^e` (`negative` is the sign bit, so there are two zeros). Finite values are
kept in the form the rounding function `roundBinary64` produces. -/
inductive QDouble where
  | nan
  | inf (negative : Bool)
  | fin (negative : Bool) (m : Nat) (e : Int)
deriving DecidableEq, Repr

/-- The C++ comparison `x < 0` on doubles: false for a NaN and for both zeros. -/
def QDouble.ltZero : QDouble → Bool
  | .nan => false
  | .inf negative => negative
  | .fin negative m _ => negative && m != 0

/-- Whether the double is a NaN. -/
def QDouble.isNaN : QDouble → Bool
  | .nan => true
  | _ => false

/-- The number of binary digits of `n` (0 for 0); `fuel` bounds the count. -/
def bitLenAux : Nat → Nat → Nat
  | 0, _ => 0
  | fuel + 1, n => if n = 0 then 0 else bitLenAux fuel (n / 2) + 1

/-- The number of binary digits of `n`. -/
def bitLen (n : Nat) : Nat := bitLenAux n n

/-- The fraction `(n / d) / 2^k` as a numerator and a denominator. -/
def scale2 (n d : Nat) (k : Int) : Nat × Nat :=
  if 0 ≤ k then (n, d * 2 ^ k.toNat) else (n * 2 ^ (-k).toNat, d)

/-- The fraction `(n / d) / 10^k` as a numerator and a denominator. -/
def scale10 (n d : Nat) (k : Int) : Nat × Nat :=
  if 0 ≤ k then (n, d * 10 ^ k.toNat) else (n * 10 ^ (-k).toNat, d)

/-- Round-to-nearest, ties to even, of the fraction `n / d`. -/
def roundHalfEven (n d : Nat) : Nat :=
  let q := n / d
  let r := n % d
  if d < 2 * r ∨ (2 * r = d ∧ q % 2 = 1) then q + 1 else q

/-- The binary64 nearest to the positive fraction `n / d` (round to nearest, ties to
even), as mantissa and binary exponent: `none` when the result overflows, `(0, 0)`
when it is zero. Normal results have `2^52 ≤ m < 2^53`, subnormal ones `e = -1074`. -/
def roundBinary64 (n d : Nat) : Option (Nat × Int) :=
  if n = 0 then some (0, 0) else
  let l : Int := (bitLen n : Int) - (bitLen d : Int)
  let s := scale2 n d l
  let e2 : Int := if s.2 ≤ s.1 then l else l - 1
  let q : Int := max (e2 - 52) (-1074)
  let t := scale2 n d q
  let m := roundHalfEven t.1 t.2
  if m = 0 then some (0, 0)
  else
    let r : Nat × Int := if m = 2 ^ 53 then (2 ^ 52, q + 1) else (m, q)
    if 971 < r.2 then none else some r


/-- The lower-case form of an ASCII capital letter; other characters are unchanged. -/
def toLowerAscii (c : Char) : Char :=
  if 65 ≤ c.toNat ∧ c.toNat ≤ 90 then Char.ofNat (c.toNat + 32) else c

/-- A decimal numeral `digits [. digits] [e [sign] digits]` with at least one
mantissa digit, read as `(mant, exp10)` for the value `mant · 10^exp10`. -/
def parseDecimal (body : QString) : Option (Nat × Int) :=
  match spanDigits body 0 0 with
  | (ip, icnt, rest) =>
    let fr : Nat × Nat × QString :=
      match rest with
      | '.' :: r => spanDigits r ip 0
      | r => (ip, 0, r)
    if icnt + fr.2.1 = 0 then none
    else
      match fr.2.2 with
      | [] => some (fr.1, -(fr.2.1 : Int))
      | 'e' :: r =>
        match spanDigits (splitSign r).2 0 0 with
        | (ev, ecnt, []) =>
          if ecnt = 0 then none
          else some (fr.1, (if (splitSign r).1 then -(ev : Int) else (ev : Int)) - (fr.2.1 : Int))
        | _ => none
      | _ => none

/-- Qt function `QString::toDouble(&ok)` (C locale), as `(ok, value)`: surrounding white space is
skipped and letters are read case-insensitively; `nan`, `inf`, `+inf`, `-inf` are
accepted; a decimal numeral is rounded to the nearest binary64. A text that is no
numeral gives `(false, 0.0)`, an overflow `(false, ±inf)`, an underflow of a non-zero
numeral `(false, 0.0)`. -/
def toDouble (s : QString) : Bool × QDouble :=
  let t := (trimmed s).map toLowerAscii
  if t = "nan".toList then (true, .nan)
  else if t = "inf".toList ∨ t = "+inf".toList then (true, .inf false)
  else if t = "-inf".toList then (true, .inf true)
  else
    match parseDecimal (splitSign t).2 with
    | none => (false, .fin false 0 0)
    | some (mant, exp10) =>
      match roundBinary64 (scale10 mant 1 (-exp10)).1 (scale10 mant 1 (-exp10)).2 with
      | none => (false, .inf (splitSign t).1)
      | some (m, e) =>
        if m = 0 ∧ mant ≠ 0 then (false, .fin false 0 0)
        else (true, .fin (splitSign t).1 m e)

/-- The number of decimal digits of `n` (0 for 0); `fuel` bounds the count. -/
def decLenAux : Nat → Nat → Nat
  | 0, _ => 0
  | fuel + 1, n => if n = 0 then 0 else decLenAux fuel (n / 10) + 1

/-- The number of decimal digits of `n`. -/
def decLen (n : Nat) : Nat := decLenAux n n

/-- The decimal exponent `⌊log10 (n / d)⌋` of a positive fraction. -/
def decExponent (n d : Nat) : Int :=
  if d ≤ n then (decLen (n / d) : Int) - 1 else -(decLen ((d - 1) / n) : Int)

/-- The fraction `n / d` rounded to `p` significant decimal digits, ties away from
zero: the `p`-digit integer and the decimal exponent of its first digit. -/
def sigDigits (p : Nat) (n d : Nat) : Nat × Int :=
  let x := decExponent n d
  let s := scale10 n d (x - ((p : Int) - 1))
  let v := (2 * s.1 + s.2) / (2 * s.2)
  if v = 10 ^ p then (10 ^ (p - 1), x + 1) else (v, x)

/-- Removes the zeros at the end of a digit string. -/
def chopZeros : QString → QString
  | [] => []
  | c :: cs =>
    match chopZeros cs with
    | [] => if c = '0' then [] else [c]
    | r => c :: r

/-- The exponent form `d[.ddd]e±xx` of the digits `ds` with decimal exponent `x`; the
exponent has at least two digits. -/
def exponentForm (ds : QString) (x : Int) : QString :=
  let mant : QString :=
    match ds with
    | [] => ['0']
    | [c] => [c]
    | c :: cs => c :: '.' :: cs
  let ex := natDigits x.natAbs
  mant ++ ['e', if x < 0 then '-' else '+'] ++ (if ex.length < 2 then '0' :: ex else ex)

/-- The decimal form of the digits `ds` with the decimal point after `decpt` digits. -/
def decimalForm (ds : QString) (decpt : Int) : QString :=
  if decpt ≤ 0 then '0' :: '.' :: (List.replicate (-decpt).toNat '0' ++ ds)
  else if (ds.length : Int) ≤ decpt then ds ++ List.replicate (decpt.toNat - ds.length) '0'
  else ds.take decpt.toNat ++ '.' :: ds.drop decpt.toNat

/-- The value `m · 2^e` as a fraction. -/
def fraction (m : Nat) (e : Int) : Nat × Nat := scale2 m 1 (-e)

/-- Qt function `QString::number(double)`: format `g` with 6 significant digits, trailing zeros
removed; the exponent form is used when the decimal exponent is below `-4` or at least
`6`. -/
def numberDouble : QDouble → QString
  | .nan => "nan".toList
  | .inf negative => if negative then "-inf".toList else "inf".toList
  | .fin negative m e =>
    let body : QString :=
      if m = 0 then ['0']
      else
        let sd := sigDigits 6 (fraction m e).1 (fraction m e).2
        let ds := chopZeros (natDigits sd.1)
        if sd.2 < -4 ∨ 6 ≤ sd.2 then exponentForm ds sd.2 else decimalForm ds (sd.2 + 1)
    if negative then '-' :: body else body

/-- Whether the decimal `c · 10^k` rounds to the binary64 `m · 2^e`. -/
def roundsTo (c : Nat) (k : Int) (m : Nat) (e : Int) : Bool :=
  roundBinary64 (scale10 c 1 (-k)).1 (scale10 c 1 (-k)).2 == some (m, e)

/-- The shortest decimal digits that identify the positive binary64 `m · 2^e`: for
`p = 17 - fuel, ...` significant digits, the neighbours below and above the exact
value are tried and the nearer one that reads back as the same double is taken (of
two equally near ones, the even one).
Returns the digits as an integer and the decimal exponent of the last digit. -/
def shortestDigits (m : Nat) (e : Int) : Nat → Nat → Nat × Int
  | 0, p => let sd := sigDigits p (fraction m e).1 (fraction m e).2; (sd.1, sd.2 - ((p : Int) - 1))
  | fuel + 1, p =>
    let f := fraction m e
    let k : Int := decExponent f.1 f.2 - ((p : Int) - 1)
    let s := scale10 f.1 f.2 k
    let lo := s.1 / s.2
    let up := decide (s.2 < 2 * (s.1 % s.2) ∨ (s.2 = 2 * (s.1 % s.2) ∧ lo % 2 = 1))
    let okLo := roundsTo lo k m e
    let okHi := roundsTo (lo + 1) k m e
    if okLo && !(up && okHi) then (lo, k)
    else if okHi then (lo + 1, k)
    else shortestDigits m e fuel (p + 1)

/-- Qt function `QVariant(double).toString()`: the shortest text that reads back as the same
double, in decimal or exponent form, whichever Qt's `g` format with
`QLocale::FloatingPointShortest` selects. -/
def variantDoubleToString : QDouble → QString
  | .nan => "nan".toList
  | .inf negative => if negative then "-inf".toList else "inf".toList
  | .fin negative m e =>
    let body : QString :=
      if m = 0 then ['0']
      else
        let sd := shortestDigits m e 16 1
        let ds := chopZeros (natDigits sd.1)
        let decpt : Int := sd.2 + (natDigits sd.1).length
        let cutoff : Int :=
          if 0 < decpt then
            (ds.length : Int) + 4 + (if decpt ≤ 10 then 1 else if 100 < decpt then 2 else 1) +
              (if decpt < (ds.length : Int) then 1 else 0)
          else 6
        if decpt ≠ (ds.length : Int) ∧ (decpt ≤ -4 ∨ cutoff < decpt) then
          exponentForm ds (decpt - 1)
        else decimalForm ds decpt
    if negative then '-' :: body else body

/-! ## The items table -/

/-- One row of `ItemsTable`: the `QTableWidgetItem*` of each of the three columns,
`none` for a null pointer, `some t` for an item whose text is `t`. -/
structure Row where
  name : Option QString
  quantity : Option QString
  price : Option QString
deriving DecidableEq, Repr

/-- The rows of `ItemsTable`, top to bottom. -/
abbrev Grid := List Row

/-- Qt function `QTableWidget::removeRow(row)`: removes the row at index `row`; an index outside
`0 .. rowCount-1` removes nothing. -/
def removeRow (g : Grid) (row : Int) : Grid :=
  if row < 0 then g else g.eraseIdx row.toNat

/-- The inner loop of `on_removeItemButton_clicked`,
`for (row = bottom; row >= top; --row) removeRow(row)`, with `n` iterations left and
`row` the current index. -/
def removeRowsDown (g : Grid) (row : Int) : Nat → Grid
  | 0 => g
  | n + 1 => removeRowsDown (removeRow g row) (row - 1) n

/-- A `QTableWidgetSelectionRange`, reduced to its rows. -/
structure SelectionRange where
  topRow : Int
  bottomRow : Int
deriving DecidableEq, Repr

/-- The number of iterations of `for (row = bottomRow; row >= topRow; --row)`. -/
def SelectionRange.rowCount (r : SelectionRange) : Nat :=
  (r.bottomRow - r.topRow + 1).toNat

/-- The slot `on_removeItemButton_clicked`: for each range of the selection, in the
order of the list, the rows from `bottomRow` down to `topRow` are removed. The indices
of every range are those of the table before the first removal. -/
def on_removeItemButton_clicked (g : Grid) : List SelectionRange → Grid
  | [] => g
  | r :: rs =>
    on_removeItemButton_clicked (removeRowsDown g r.bottomRow r.rowCount) rs

/-- The slot `on_addItemButton_clicked`: a new last row with the cells `""`, `"1"`
and `"0.0"`. -/
def on_addItemButton_clicked (g : Grid) : Grid :=
  g ++ [⟨some "".toList, some "1".toList, some "0.0".toList⟩]

/-- The rows that a selection covers: `i` is selected when some range has
`topRow ≤ i ≤ bottomRow`. -/
def isSelected (rs : List SelectionRange) (i : Nat) : Bool :=
  rs.any fun r => decide (r.topRow ≤ (i : Int)) && decide ((i : Int) ≤ r.bottomRow)

/-! ## Dates -/

/-- A `QDate` as year, month and day of the Gregorian calendar. A triple that is no
calendar date stands for an invalid `QDate`. -/
structure QDate where
  year : Nat
  month : Nat
  day : Nat
deriving DecidableEq, Repr

/-- The number of days of a month. -/
def daysInMonth (year month : Nat) : Nat :=
  if month = 2 then
    if (year % 4 = 0 ∧ year % 100 ≠ 0) ∨ year % 400 = 0 then 29 else 28
  else if month = 4 ∨ month = 6 ∨ month = 9 ∨ month = 11 then 30
  else 31

/-- Qt function `QDate::isValid`. -/
def QDate.isValid (d : QDate) : Bool :=
  decide (1 ≤ d.year ∧ 1 ≤ d.month ∧ d.month ≤ 12 ∧ 1 ≤ d.day ∧
    d.day ≤ daysInMonth d.year d.month)

/-- The invalid date that a failed conversion returns. -/
def QDate.null : QDate := ⟨0, 0, 0⟩

/-- Calendar order: `a` is not after `b`. -/
def QDate.le (a b : QDate) : Bool :=
  decide (a.year < b.year ∨ (a.year = b.year ∧ (a.month < b.month ∨
    (a.month = b.month ∧ a.day ≤ b.day))))

/-- A decimal text filled with zeros on the left up to `width` characters. -/
def padLeft (width : Nat) (s : QString) : QString :=
  List.replicate (width - s.length) '0' ++ s

/-- Qt function `QDate::toString("yyyy-MM-dd")`: empty for an invalid date. -/
def QDate.toString (d : QDate) : QString :=
  if d.isValid then
    padLeft 4 (natDigits d.year) ++ '-' :: (padLeft 2 (natDigits d.month) ++
      '-' :: padLeft 2 (natDigits d.day))
  else []

/-- Reads a field of exactly `width` digits. -/
def readField (width : Nat) (s : QString) : Option Nat :=
  match spanDigits s 0 0 with
  | (v, cnt, []) => if cnt = width then some v else none
  | _ => none

/-- Qt function `QDate::fromString(text, "yyyy-MM-dd")`: four, two and two digits separated by
`-`, naming a calendar date; anything else gives an invalid date. -/
def QDate.fromString (s : QString) : QDate :=
  if s.length = 10 ∧ s.get? 4 = some '-' ∧ s.get? 7 = some '-' then
    match readField 4 (s.take 4), readField 2 ((s.drop 5).take 2), readField 2 (s.drop 8) with
    | some y, some m, some d => if (QDate.mk y m d).isValid then ⟨y, m, d⟩ else QDate.null
    | _, _, _ => QDate.null
  else QDate.null

/-- The `QDateEdit` widget: its date and its permitted range (`minimumDate`,
`maximumDate`, properties of the form that the handlers never change). -/
structure DateEdit where
  date : QDate
  minimumDate : QDate
  maximumDate : QDate
deriving DecidableEq, Repr

/-- Qt function `QDateEdit::setDate`: an invalid date is ignored, a valid one is brought into the
range of the widget. -/
def DateEdit.setDate (w : DateEdit) (d : QDate) : DateEdit :=
  if d.isValid then
    { w with date := if !w.minimumDate.le d then w.minimumDate
                     else if !d.le w.maximumDate then w.maximumDate else d }
  else w

/-! ## The database -/

/-- A row of table `invoices`. -/
structure Invoice where
  id : Int
  customer_name : QString
  date : QString
deriving DecidableEq, Repr

/-- A row of table `invoice_items`. -/
structure InvoiceItem where
  id : Int
  invoice_id : Int
  item_name : QString
  quantity : Int
  price : QDouble
deriving DecidableEq, Repr

/-- The content of the database file: the two tables, each in row-id order, and the
`AUTOINCREMENT` counters that SQLite keeps for them. -/
structure Tables where
  invoices : List Invoice
  invoice_items : List InvoiceItem
  seqInvoices : Int
  seqItems : Int
deriving DecidableEq, Repr

/-- A call that Save makes on the connection: `db.transaction()`, the execution of one
of the two `INSERT` statements, `db.commit()` or `db.rollback()`. -/
inductive DbCall where
  | transaction
  | insertInvoice
  | insertItem
  | commit
  | rollback
deriving DecidableEq, Repr

/-- The connection `db`: the tables as the connection sees them; while a transaction
is open, the tables as they were when it began; and the calls made on the connection
so far, oldest first. -/
structure Conn where
  tables : Tables
  snapshot : Option Tables
  calls : List DbCall
deriving DecidableEq, Repr

/-- The largest of a list of ids and a lower bound. -/
def maxId (ids : List Int) (bound : Int) : Int :=
  ids.foldl max bound

/-- The call `db.transaction()`, with its result: it fails when the environment says
so and when a transaction is already open; otherwise a transaction is open
afterwards. -/
def Conn.transaction (c : Conn) (ok : Bool) : Bool × Conn :=
  if ok && c.snapshot.isNone then
    (true, { c with snapshot := some c.tables, calls := c.calls ++ [.transaction] })
  else (false, { c with calls := c.calls ++ [.transaction] })

/-- The call `db.rollback()`: the tables go back to what they were when the
transaction began and the transaction is closed. The slot does not look at the result
of this call; the engine is taken to carry it out. -/
def Conn.rollback (c : Conn) : Conn :=
  match c.snapshot with
  | some t => { tables := t, snapshot := none, calls := c.calls ++ [.rollback] }
  | none => { c with calls := c.calls ++ [.rollback] }

/-- The call `db.commit()`, with its result: when it fails the transaction stays
open, otherwise it is closed and the tables stay as they are. -/
def Conn.commit (c : Conn) (ok : Bool) : Bool × Conn :=
  if ok then (true, { c with snapshot := none, calls := c.calls ++ [.commit] })
  else (false, { c with calls := c.calls ++ [.commit] })

/-- The statement `INSERT INTO invoices (customer_name, date) VALUES (?, ?)`: the
result is `lastInsertId()` when the statement succeeds and `none` when it fails. The
new id is one more than the largest id the table ever held (`AUTOINCREMENT`); row ids
are 64-bit, so `toLongLong()` returns it unchanged. -/
def Conn.insertInvoice (c : Conn) (ok : Bool) (customer date : QString) :
    Option Int × Conn :=
  if ok then
    (some (maxId (c.tables.invoices.map Invoice.id) c.tables.seqInvoices + 1),
     { c with
       tables := { c.tables with
         invoices := c.tables.invoices ++
           [⟨maxId (c.tables.invoices.map Invoice.id) c.tables.seqInvoices + 1, customer, date⟩]
         seqInvoices := maxId (c.tables.invoices.map Invoice.id) c.tables.seqInvoices + 1 }
       calls := c.calls ++ [.insertInvoice] })
  else (none, { c with calls := c.calls ++ [.insertInvoice] })

/-- The double that column `price` (type `REAL`) holds after a double was bound to it:
SQLite keeps a double of integer value as an integer and turns it back into a double
when it is read, so a negative zero comes back as `0.0`; every other value is kept. -/
def storedReal : QDouble → QDouble
  | .fin _ 0 _ => .fin false 0 0
  | x => x

/-- The statement `INSERT INTO invoice_items (invoice_id, item_name, quantity, price)
VALUES (?, ?, ?, ?)`, with its result. It fails when the environment says so, and for
a NaN price: SQLite stores a NaN as NULL, which the `NOT NULL` constraint of column
`price` rejects. -/
def Conn.insertItem (c : Conn) (ok : Bool) (invoiceId : Int) (name : QString)
    (quantity : Int) (price : QDouble) : Bool × Conn :=
  if ok && !price.isNaN then
    (true,
     { c with
       tables := { c.tables with
         invoice_items := c.tables.invoice_items ++
           [⟨maxId (c.tables.invoice_items.map InvoiceItem.id) c.tables.seqItems + 1,
             invoiceId, name, quantity, storedReal price⟩]
         seqItems := maxId (c.tables.invoice_items.map InvoiceItem.id) c.tables.seqItems + 1 }
       calls := c.calls ++ [.insertItem] })
  else (false, { c with calls := c.calls ++ [.insertItem] })

/-- The statement `SELECT id, customer_name, date FROM invoices ORDER BY id DESC LIMIT 1`: the row
with the largest id. -/
def lastInvoice : List Invoice → Option Invoice
  | [] => none
  | inv :: rest =>
    match lastInvoice rest with
    | none => some inv
    | some best => if best.id ≤ inv.id then some inv else some best

/-- The statement `SELECT item_name, quantity, price FROM invoice_items WHERE invoice_id = ?`. -/
def selectItems (items : List InvoiceItem) (invoiceId : Int) : List InvoiceItem :=
  items.filter fun it => it.invoice_id = invoiceId

/-- Qt function `QVariant::toInt` of a 64-bit integer: the low 32 bits, read as a signed `int`. -/
def variantToInt (v : Int) : Int :=
  (v + 2147483648) % 4294967296 - 2147483648

/-! ## The form and its slots -/

/-- The state of the window: customer line edit, date edit and items table. -/
structure Form where
  customer : QString
  dateEdit : DateEdit
  grid : Grid
deriving DecidableEq, Repr

/-- What `on_SaveInoviceButton_clicked` cannot read from the form: the current date,
the outcome of each database call, and the value found in a flag that is read without
having been assigned (for row `i` and column `j`). -/
structure SaveEnv where
  currentDate : QDate
  transactionOk : Bool
  insertInvoiceOk : Bool
  insertItemOk : Nat → Bool
  commitOk : Bool
  indeterminate : Nat → Nat → Bool

/-- The message box that `on_SaveInoviceButton_clicked` shows; row numbers are the
1-based numbers of the message text. -/
inductive SaveReport where
  | customerEmpty
  | noItems
  | itemNameEmpty (row : Nat)
  | quantityInvalid (row : Nat)
  | priceInvalid (row : Nat)
  | transactionFailed
  | insertInvoiceFailed
  | insertItemFailed
  | commitFailed
  | saved
deriving DecidableEq, Repr

/-- An entry of the local list `items`: the three texts of a validated row. -/
structure Item where
  name : QString
  quantity : QString
  price : QString
deriving DecidableEq, Repr

/-- The statement `int quantity = quantityItem ? quantityItem->text().toInt(&quantityOk)
: 0` for row `i`, as `(quantityOk, quantity)`: with a null cell the flag is not
assigned and holds whatever `junk` says. -/
def quantityCell (junk : Nat → Nat → Bool) (i : Nat) (r : Row) : Bool × Int :=
  match r.quantity with
  | some t => toInt t
  | none => (junk i 1, 0)

/-- The statement `double price = priceItem ? priceItem->text().toDouble(&priceOk)
: 0.0` for row `i`, as `(priceOk, price)`. -/
def priceCell (junk : Nat → Nat → Bool) (i : Nat) (r : Row) : Bool × QDouble :=
  match r.price with
  | some t => toDouble t
  | none => (junk i 2, .fin false 0 0)

/-- The body of the validation loop for row `i`: the message of the first failing
check, or the entry appended to `items`. -/
def checkRow (junk : Nat → Nat → Bool) (i : Nat) (r : Row) : Except SaveReport Item :=
  if (match r.name with
      | none => true
      | some t => (trimmed t).isEmpty) then .error (.itemNameEmpty (i + 1))
  else if !(quantityCell junk i r).1 || decide ((quantityCell junk i r).2 ≤ 0) then
    .error (.quantityInvalid (i + 1))
  else if !(priceCell junk i r).1 || (priceCell junk i r).2.ltZero then
    .error (.priceInvalid (i + 1))
  else
    .ok ⟨trimmed (r.name.getD []), numberInt (quantityCell junk i r).2,
      numberDouble (priceCell junk i r).2⟩

/-- The validation loop of `on_SaveInoviceButton_clicked` from row `i` on: the first
failing check ends it with its message, otherwise every row yields its entry of
`items`. -/
def validateRows (junk : Nat → Nat → Bool) : Nat → List Row → Except SaveReport (List Item)
  | _, [] => .ok []
  | i, r :: rs =>
    match checkRow junk i r with
    | .error e => .error e
    | .ok it =>
      match validateRows junk (i + 1) rs with
      | .error e => .error e
      | .ok items => .ok (it :: items)

/-- The insert loop of `on_SaveInoviceButton_clicked` from the `k`-th entry on:
`(true, c)` when every insert succeeded, `(false, c)` at the first failing one. -/
def insertItems (ok : Nat → Bool) (invoiceId : Int) : Nat → List Item → Conn → Bool × Conn
  | _, [], c => (true, c)
  | k, it :: its, c =>
    match c.insertItem (ok k) invoiceId it.name (toInt it.quantity).2 (toDouble it.price).2 with
    | (false, c1) => (false, c1)
    | (true, c1) => insertItems ok invoiceId (k + 1) its c1

/-- The slot `on_SaveInoviceButton_clicked`: message shown, form and connection
afterwards. -/
def on_SaveInoviceButton_clicked (env : SaveEnv) (form : Form) (db : Conn) :
    SaveReport × Form × Conn :=
  let customer := trimmed form.customer
  let date := form.dateEdit.date
  if customer.isEmpty then (.customerEmpty, form, db)
  else if form.grid.length = 0 then (.noItems, form, db)
  else
    match validateRows env.indeterminate 0 form.grid with
    | .error e => (e, form, db)
    | .ok items =>
      match db.transaction env.transactionOk with
      | (false, db1) => (.transactionFailed, form, db1)
      | (true, db1) =>
        match db1.insertInvoice env.insertInvoiceOk customer date.toString with
        | (none, db2) => (.insertInvoiceFailed, form, db2.rollback)
        | (some invoiceId, db2) =>
          match insertItems env.insertItemOk invoiceId 0 items db2 with
          | (false, db3) => (.insertItemFailed, form, db3.rollback)
          | (true, db3) =>
            match db3.commit env.commitOk with
            | (false, db4) => (.commitFailed, form, db4.rollback)
            | (true, db4) =>
              (.saved,
               { customer := [], dateEdit := form.dateEdit.setDate env.currentDate, grid := [] },
               db4)

/-- What `on_loadLastInvoice_clicked` cannot read from the form: the current date and
the outcome of its two queries. -/
structure LoadEnv where
  currentDate : QDate
  selectInvoiceOk : Bool
  selectItemsOk : Bool

/-- How `on_loadLastInvoice_clicked` ends: the two `qDebug` failures, the branch for
an empty table, and the normal end. -/
inductive LoadReport where
  | invoiceQueryFailed
  | nothingToLoad
  | itemsQueryFailed
  | loaded
deriving DecidableEq, Repr

/-- The table row that the loop of `on_loadLastInvoice_clicked` appends for an item. -/
def itemRow (it : InvoiceItem) : Row :=
  ⟨some it.item_name, some (numberInt it.quantity), some (variantDoubleToString it.price)⟩

/-- The loop `while (itemsQuery.next())` of `on_loadLastInvoice_clicked`: each result
row becomes a new last row of the table. -/
def appendItemRows (g : Grid) : List InvoiceItem → Grid
  | [] => g
  | it :: its => appendItemRows (g ++ [itemRow it]) its

/-- The slot `on_loadLastInvoice_clicked`: how it ends and the form afterwards. -/
def on_loadLastInvoice_clicked (env : LoadEnv) (form : Form) (db : Conn) :
    LoadReport × Form :=
  if !env.selectInvoiceOk then (.invoiceQueryFailed, form)
  else
    match lastInvoice db.tables.invoices with
    | none =>
      (.nothingToLoad,
       { customer := [], dateEdit := form.dateEdit.setDate env.currentDate, grid := [] })
    | some inv =>
      let invoiceId := variantToInt inv.id
      let form1 : Form :=
        { customer := inv.customer_name
          dateEdit := form.dateEdit.setDate (QDate.fromString inv.date)
          grid := [] }
      if !env.selectItemsOk then (.itemsQueryFailed, form1)
      else
        (.loaded,
         { form1 with
           grid := appendItemRows form1.grid (selectItems db.tables.invoice_items invoiceId) })

/-! ## Vocabulary of the specification -/

/-- The rows of a grid that a selection does not cover, in their order; `i` is the
index of the first row of `g`. -/
def keepUnselected (rs : List SelectionRange) : Nat → Grid → Grid
  | _, [] => []
  | i, x :: xs =>
    if isSelected rs i then keepUnselected rs (i + 1) xs
    else x :: keepUnselected rs (i + 1) xs

/-- The rows of a grid that a selection does not cover, in their original order. -/
def unselectedRows (g : Grid) (rs : List SelectionRange) : Grid :=
  keepUnselected rs 0 g

/-- A name that is blank: empty after trimming. -/
def nameBlank (t : QString) : Bool := (trimmed t).isEmpty

/-- A quantity text that does not parse as an integer or is not positive. -/
def quantityRejected (t : QString) : Bool := !(toInt t).1 || decide ((toInt t).2 ≤ 0)

/-- The comparison `x >= 0` on doubles: false for a NaN, true for both zeros. -/
def QDouble.geZero : QDouble → Bool
  | .nan => false
  | .inf negative => !negative
  | .fin negative m _ => !negative || m == 0

/-- A price text that the specification rejects: it is not the case that it parses as
a number and is at least zero. A text that `toDouble` does not accept is rejected, a
negative number is rejected, and so is `nan`, which reads as a NaN. -/
def priceRejected (t : QString) : Bool := !((toDouble t).1 && (toDouble t).2.geZero)

/-- A row one of whose cells holds a text that the specification rejects: a blank
name, a quantity that does not parse as an integer above zero, or a price that does
not parse as a number that is at least zero. -/
def Row.rejected (r : Row) : Prop :=
  (∃ t, r.name = some t ∧ nameBlank t = true) ∨
  (∃ t, r.quantity = some t ∧ quantityRejected t = true) ∨
  (∃ t, r.price = some t ∧ priceRejected t = true)

/-- A row whose price cell, if it holds a text, does not read as a NaN. -/
def Row.priceNotNaN (r : Row) : Prop :=
  ∀ t, r.price = some t → (toDouble t).2.isNaN = false

/-- A row that satisfies the three rules of the specification: all cells present,
name not blank, quantity and price not rejected. -/
def Row.passes (r : Row) : Prop :=
  ∃ n q p, r = ⟨some n, some q, some p⟩ ∧ nameBlank n = false ∧
    quantityRejected q = false ∧ priceRejected p = false

/-- The fields of a row, in the order in which they are checked. -/
inductive Field where
  | name
  | quantity
  | price
deriving DecidableEq, Repr

/-- The first field of a row that breaks its rule in the specification, in the order
name, quantity, price. -/
def Row.firstViolation (r : Row) (f : Field) : Prop :=
  match f with
  | .name => ∃ n, r.name = some n ∧ nameBlank n = true
  | .quantity => ∃ n q, r.name = some n ∧ nameBlank n = false ∧
      r.quantity = some q ∧ quantityRejected q = true
  | .price => ∃ n q p, r.name = some n ∧ nameBlank n = false ∧
      r.quantity = some q ∧ quantityRejected q = false ∧
      r.price = some p ∧ priceRejected p = true

/-- The message for a failing field of the row with 1-based number `row`. -/
def rowReport (f : Field) (row : Nat) : SaveReport :=
  match f with
  | .name => .itemNameEmpty row
  | .quantity => .quantityInvalid row
  | .price => .priceInvalid row

/-- The messages of the validation phase, shown before any database call. -/
def SaveReport.isValidation : SaveReport → Bool
  | .customerEmpty | .noItems | .itemNameEmpty _ | .quantityInvalid _ | .priceInvalid _ => true
  | _ => false

/-- The entry of `items` that an accepted row yields. -/
def Row.entry (r : Row) : Item :=
  ⟨trimmed (r.name.getD []), numberInt (toInt (r.quantity.getD [])).2,
    numberDouble (toDouble (r.price.getD [])).2⟩

/-- A valid row, in the words of the specification: all three cells present, a name
that is not empty after trimming, a quantity that parses as an integer above zero, a
price that parses as a number that is at least zero. -/
def Row.valid (r : Row) : Prop :=
  ∃ n q p, r = ⟨some n, some q, some p⟩ ∧ trimmed n ≠ [] ∧
    ((toInt q).1 = true ∧ 0 < (toInt q).2) ∧
    ((toDouble p).1 = true ∧ (toDouble p).2.geZero = true)

/-- A valid form: a customer that is not empty after trimming, at least one row, and
only valid rows. -/
def Form.valid (f : Form) : Prop :=
  trimmed f.customer ≠ [] ∧ f.grid ≠ [] ∧ ∀ r ∈ f.grid, r.valid

/-- Every database call of Save succeeds: the outcomes that the environment decides
are all positive and no transaction is open when Save starts one. -/
def SaveEnv.allOk (env : SaveEnv) (db : Conn) : Prop :=
  env.transactionOk = true ∧ env.insertInvoiceOk = true ∧ (∀ k, env.insertItemOk k = true) ∧
    env.commitOk = true ∧ db.snapshot = none

/-- The values that the database holds for a row after Save: the trimmed name, the
quantity read by `toInt`, and the price after its way through `QString::number` and
`toDouble` into the `REAL` column. -/
def Row.stored (r : Row) : QString × Int × QDouble :=
  (trimmed (r.name.getD []), (toInt (r.quantity.getD [])).2,
    storedReal (toDouble (numberDouble (toDouble (r.price.getD [])).2)).2)

/-- The grid row that Load shows for a row that Save has stored: the stored name, the
stored quantity as decimal text, and the stored price as the shortest text that reads
back as the same double. -/
def Row.reloaded (r : Row) : Row :=
  ⟨some r.stored.1, some (numberInt r.stored.2.1), some (variantDoubleToString r.stored.2.2)⟩

/-- The name, quantity and price of a row of `invoice_items`. -/
def InvoiceItem.content (it : InvoiceItem) : QString × Int × QDouble :=
  (it.item_name, it.quantity, it.price)

/-- A date that the date edit shows unchanged when it is set: a calendar date within
the range of the widget. -/
def DateEdit.accepts (w : DateEdit) (d : QDate) : Prop :=
  d.isValid = true ∧ w.minimumDate.le d = true ∧ d.le w.maximumDate = true

/-- An id that a 32-bit `int` can hold. -/
def fitsInt (v : Int) : Prop := -2147483648 ≤ v ∧ v ≤ 2147483647

/-- A selection whose ranges are listed from the bottom of the table upwards: every
range lies within rows `0 .. bound - 1` and entirely above the range listed before
it. -/
def descendingRanges (bound : Int) : List SelectionRange → Prop
  | [] => True
  | r :: rs =>
    0 ≤ r.topRow ∧ r.topRow ≤ r.bottomRow ∧ r.bottomRow < bound ∧
      descendingRanges r.topRow rs

/-- The window together with its database connection. -/
structure World where
  form : Form
  db : Conn

/-- What the user can do with the window: the four buttons, and editing the customer
field, the date or the text of a cell. -/
inductive Op where
  | addRow
  | removeSelected (ranges : List SelectionRange)
  | save (env : SaveEnv)
  | load (env : LoadEnv)
  | editCustomer (text : QString)
  | editDate (d : QDate)
  | editCell (row column : Nat) (text : QString)

/-- Typing `text` into the cell in row `row` and column `column`: the cell then holds
an item with that text; a position outside the table changes nothing. -/
def editCell : Grid → Nat → Nat → QString → Grid
  | [], _, _, _ => []
  | r :: rs, 0, column, text =>
    (if column = 0 then { r with name := some text }
     else if column = 1 then { r with quantity := some text }
     else if column = 2 then { r with price := some text }
     else r) :: rs
  | r :: rs, row + 1, column, text => r :: editCell rs row column text

/-- The effect of one user action. -/
def step (w : World) : Op → World
  | .addRow => { w with form := { w.form with grid := on_addItemButton_clicked w.form.grid } }
  | .removeSelected ranges =>
    { w with form := { w.form with grid := on_removeItemButton_clicked w.form.grid ranges } }
  | .save env =>
    ⟨(on_SaveInoviceButton_clicked env w.form w.db).2.1,
      (on_SaveInoviceButton_clicked env w.form w.db).2.2⟩
  | .load env => { w with form := (on_loadLastInvoice_clicked env w.form w.db).2 }
  | .editCustomer text => { w with form := { w.form with customer := text } }
  | .editDate d => { w with form := { w.form with dateEdit := w.form.dateEdit.setDate d } }
  | .editCell row column text =>
    { w with form := { w.form with grid := editCell w.form.grid row column text } }

/-- The effect of a sequence of user actions. -/
def run (w : World) (ops : List Op) : World :=
  ops.foldl step w

/-- The window right after start-up, with the given date edit: empty customer field,
empty table, and a database whose two tables are empty. -/
def startWorld (dateEdit : DateEdit) : World :=
  ⟨⟨[], dateEdit, []⟩, ⟨⟨[], [], 0, 0⟩, none, []⟩⟩

/-- A row all of whose three cells hold an item. -/
def Row.complete (r : Row) : Prop :=
  r.name.isSome = true ∧ r.quantity.isSome = true ∧ r.price.isSome = true

/-- The invariant of the persisted data: every item refers to an invoice of the
table, has a quantity above zero, a price of at least zero and a name that is not
empty after trimming; every invoice has a customer name that is not empty after
trimming. -/
def Tables.wellFormed (t : Tables) : Prop :=
  (∀ it ∈ t.invoice_items,
    (∃ inv ∈ t.invoices, inv.id = it.invoice_id) ∧ 0 < it.quantity ∧
      it.price.geZero = true ∧ trimmed it.item_name ≠ []) ∧
  (∀ inv ∈ t.invoices, trimmed inv.customer_name ≠ [])

/-- An entry of `items` whose texts yield a row that satisfies the invariant, provided
its price is one that the database stores. -/
def Item.sound (it : Item) : Prop :=
  trimmed it.name ≠ [] ∧ 0 < (toInt it.quantity).2 ∧
    ((toDouble it.price).2.isNaN = false → (toDouble it.price).2.geZero = true)

/-! ## Concrete inputs -/

/-- A row whose three cells hold the given texts. -/
def textRow (name quantity price : String) : Row :=
  ⟨some name.toList, some quantity.toList, some price.toList⟩

/-- A date edit showing 29 February 2024, with the default range of a `QDateEdit`. -/
def exampleDateEdit : DateEdit :=
  ⟨⟨2024, 2, 29⟩, ⟨1752, 9, 14⟩, ⟨9999, 12, 31⟩⟩

/-- A form with the given customer and rows. -/
def exampleForm (customer : String) (rows : List Row) : Form :=
  ⟨customer.toList, exampleDateEdit, rows⟩

/-- The database right after the tables were created. -/
def emptyDatabase : Conn := ⟨⟨[], [], 0, 0⟩, none, []⟩

/-- An environment in which every database call succeeds; the current date is
1 January 2025. -/
def allSucceed : SaveEnv :=
  ⟨⟨2025, 1, 1⟩, true, true, fun _ => true, true, fun _ _ => false⟩

/-- An environment in which exactly the insert of the item with 0-based number `k`
fails. -/
def itemInsertFails (k : Nat) : SaveEnv :=
  { allSucceed with insertItemOk := fun i => i != k }

/-- An environment for Load in which both queries succeed. -/
def queriesSucceed : LoadEnv := ⟨⟨2025, 1, 1⟩, true, true⟩

/-- An environment for Load in which the first query fails. -/
def invoiceQueryFails : LoadEnv := ⟨⟨2025, 1, 1⟩, false, true⟩

/-- Five rows named `a` to `e`. -/
def fiveRows : Grid :=
  [textRow "a" "1" "0.0", textRow "b" "1" "0.0", textRow "c" "1" "0.0",
   textRow "d" "1" "0.0", textRow "e" "1" "0.0"]

/-- A form that is not in its default state: a customer and one row. -/
def filledForm : Form := exampleForm "Bob" [textRow "Chips" "2" "1.50"]

/-- A database whose only invoice has the id `2^31`, with one item that belongs to
it (2 Chips at 1.5). -/
def largeIdDatabase : Conn :=
  ⟨⟨[⟨2147483648, "Bob".toList, "2024-02-29".toList⟩],
    [⟨1, 2147483648, "Chips".toList, 2, .fin false 6755399441055744 (-52)⟩],
    2147483648, 1⟩, none, []⟩

/-- A form with a price of seven significant digits. -/
def bulkOrderForm : Form := exampleForm "Bob" [textRow "Chips" "2" "12345.67"]

/-- The two rows of the round-trip example of the specification. -/
def chipsAndSodaForm : Form :=
  exampleForm "Bob" [textRow "Chips" "2" "1.50", textRow "Soda" "1" "0.99"]

/-- A well-formed database whose last invoice has the largest id that an `int` holds,
`2^31 - 1`. -/
def lastIntIdDatabase : Conn :=
  ⟨⟨[⟨2147483647, "Al".toList, "2024-01-01".toList⟩], [], 2147483647, 0⟩, none, []⟩

/-! ## Facts about the text conversions -/

theorem trimEnd_cons_nil (c : Char) (cs : QString) (h : trimEnd cs = []) :
    trimEnd (c :: cs) = if isSpace c then [] else [c] := by
  rw [trimEnd, h]

theorem trimEnd_cons_cons (c d : Char) (cs ds : QString) (h : trimEnd cs = d :: ds) :
    trimEnd (c :: cs) = c :: d :: ds := by
  rw [trimEnd, h]

theorem trimEnd_cons_of_not_space (c : Char) (cs : QString) (h : isSpace c = false) :
    ∃ r, trimEnd (c :: cs) = c :: r := by
  cases hr : trimEnd cs with
  | nil => exact ⟨[], by rw [trimEnd_cons_nil c cs hr]; simp [h]⟩
  | cons d ds => exact ⟨d :: ds, trimEnd_cons_cons c d cs ds hr⟩

theorem trimEnd_idem (s : QString) : trimEnd (trimEnd s) = trimEnd s := by
  induction s with
  | nil => rfl
  | cons c cs ih =>
    cases h : trimEnd cs with
    | nil =>
      rw [trimEnd_cons_nil c cs h]
      by_cases hc : isSpace c = true
      · simp [hc, trimEnd]
      · rw [if_neg hc, trimEnd_cons_nil c [] rfl, if_neg hc]
    | cons d ds =>
      rw [h] at ih
      rw [trimEnd_cons_cons c d cs ds h, trimEnd_cons_cons c d (d :: ds) ds ih]

theorem dropWhile_isSpace_head (s : QString) :
    s.dropWhile isSpace = [] ∨ ∃ c r, s.dropWhile isSpace = c :: r ∧ isSpace c = false := by
  induction s with
  | nil => exact Or.inl rfl
  | cons c cs ih =>
    by_cases hc : isSpace c = true
    · simpa [List.dropWhile, hc] using ih
    · exact Or.inr ⟨c, cs, by simp [List.dropWhile, hc], by simpa using hc⟩

/-- Trimming a trimmed text changes nothing. -/
theorem trimmed_idem (s : QString) : trimmed (trimmed s) = trimmed s := by
  unfold trimmed
  rcases dropWhile_isSpace_head s with h | ⟨c, r, h, hc⟩
  · rw [h]; rfl
  · rw [h]
    obtain ⟨r1, hr1⟩ := trimEnd_cons_of_not_space c r hc
    rw [hr1]
    have : List.dropWhile isSpace (c :: r1) = c :: r1 := by simp [List.dropWhile, hc]
    rw [this, ← hr1, trimEnd_idem]

theorem trimEnd_of_no_space (s : QString) (h : ∀ c ∈ s, isSpace c = false) :
    trimEnd s = s := by
  induction s with
  | nil => rfl
  | cons c cs ih =>
    have ih1 := ih (fun d hd => h d (List.mem_cons_of_mem _ hd))
    cases cs with
    | nil => rw [trimEnd_cons_nil c [] rfl]; simp [h c (List.mem_cons_self _ _)]
    | cons d ds => exact trimEnd_cons_cons c d (d :: ds) ds ih1

/-- A text without white space is its own trimmed form. -/
theorem trimmed_of_no_space (s : QString) (h : ∀ c ∈ s, isSpace c = false) :
    trimmed s = s := by
  unfold trimmed
  cases s with
  | nil => rfl
  | cons c cs =>
    have hc := h c (List.mem_cons_self _ _)
    have : List.dropWhile isSpace (c :: cs) = c :: cs := by simp [List.dropWhile, hc]
    rw [this, trimEnd_of_no_space _ h]

theorem trimmed_cons_of_not_space (c : Char) (cs : QString) (h : isSpace c = false) :
    ∃ r, trimmed (c :: cs) = c :: r := by
  unfold trimmed
  have : List.dropWhile isSpace (c :: cs) = c :: cs := by simp [List.dropWhile, h]
  rw [this]
  exact trimEnd_cons_of_not_space c cs h

theorem digitVal_digitChar (d : Nat) (h : d < 10) : digitVal (digitChar d) = some d := by
  interval_cases d <;> rfl

theorem digitVal_digitChar_isSome (d : Nat) : (digitVal (digitChar d)).isSome = true := by
  by_cases h : d < 10
  · rw [digitVal_digitChar d h]; rfl
  · have : digitChar d = '9' := by
      unfold digitChar
      split <;> first | omega | rfl
    rw [this]; rfl

theorem isSpace_of_digit (c : Char) (h : (digitVal c).isSome = true) : isSpace c = false := by
  unfold digitVal at h
  by_cases hc : 48 ≤ c.toNat ∧ c.toNat ≤ 57
  · unfold isSpace
    simp only [Bool.or_eq_false_iff, Bool.and_eq_false_iff, decide_eq_false_iff_not,
      beq_eq_false_iff_ne]
    omega
  · simp [hc] at h

theorem spanDigits_cons_digit (c : Char) (cs : QString) (acc cnt d : Nat)
    (h : digitVal c = some d) :
    spanDigits (c :: cs) acc cnt = spanDigits cs (acc * 10 + d) (cnt + 1) := by
  rw [spanDigits, h]

theorem natDigitsAux_append (fuel : Nat) :
    ∀ (n : Nat) (acc : QString), natDigitsAux fuel n acc = natDigitsAux fuel n [] ++ acc := by
  induction fuel with
  | zero => intro n acc; rfl
  | succ f ih =>
    intro n acc
    unfold natDigitsAux
    by_cases h : n < 10
    · simp [h]
    · simp only [h, if_false]
      rw [ih (n / 10) (digitChar (n % 10) :: acc), ih (n / 10) [digitChar (n % 10)]]
      simp

theorem natDigitsAux_all_digits (fuel : Nat) :
    ∀ (n : Nat), ∀ c ∈ natDigitsAux fuel n [], (digitVal c).isSome = true := by
  induction fuel with
  | zero => intro n c hc; simp [natDigitsAux] at hc
  | succ f ih =>
    intro n c hc
    unfold natDigitsAux at hc
    by_cases h : n < 10
    · simp only [h, if_true, List.mem_singleton] at hc
      rw [hc]; exact digitVal_digitChar_isSome n
    · simp only [h, if_false] at hc
      rw [natDigitsAux_append] at hc
      rcases List.mem_append.1 hc with h1 | h1
      · exact ih _ c h1
      · simp only [List.mem_singleton] at h1
        rw [h1]; exact digitVal_digitChar_isSome _

theorem natDigits_all_digits (n : Nat) : ∀ c ∈ natDigits n, (digitVal c).isSome = true :=
  natDigitsAux_all_digits (n + 1) n

theorem natDigitsAux_ne_nil (fuel n : Nat) (h : n < fuel) : natDigitsAux fuel n [] ≠ [] := by
  cases fuel with
  | zero => omega
  | succ f =>
    unfold natDigitsAux
    by_cases h10 : n < 10
    · simp [h10]
    · simp only [h10, if_false]
      rw [natDigitsAux_append]
      simp

theorem spanDigits_natDigitsAux (fuel : Nat) :
    ∀ (n : Nat), n < fuel → ∀ (rest : QString) (acc cnt : Nat),
      spanDigits (natDigitsAux fuel n [] ++ rest) acc cnt =
        spanDigits rest (acc * 10 ^ (natDigitsAux fuel n []).length + n)
          (cnt + (natDigitsAux fuel n []).length) := by
  induction fuel with
  | zero => intro n h; omega
  | succ f ih =>
    intro n hn rest acc cnt
    unfold natDigitsAux
    by_cases h : n < 10
    · simp only [h, if_true, List.singleton_append, List.length_singleton, pow_one]
      rw [spanDigits_cons_digit _ _ _ _ _ (digitVal_digitChar n h)]
    · simp only [h, if_false]
      rw [natDigitsAux_append f (n / 10) [digitChar (n % 10)], List.append_assoc,
        ih (n / 10) (by omega)]
      simp only [List.singleton_append, List.length_append, List.length_singleton]
      rw [spanDigits_cons_digit _ _ _ _ _
        (digitVal_digitChar (n % 10) (Nat.mod_lt _ (by norm_num)))]
      have e1 : (acc * 10 ^ (natDigitsAux f (n / 10) []).length + n / 10) * 10 + n % 10 =
          acc * 10 ^ ((natDigitsAux f (n / 10) []).length + 1) + n := by
        have := Nat.div_add_mod n 10
        rw [pow_succ]
        nlinarith [this]
      rw [e1, Nat.add_assoc]

theorem spanDigits_natDigits (n : Nat) :
    spanDigits (natDigits n) 0 0 = (n, (natDigits n).length, []) := by
  have := spanDigits_natDigitsAux (n + 1) n (Nat.lt_succ_self n) [] 0 0
  simp only [List.append_nil, Nat.zero_mul, Nat.zero_add] at this
  rw [natDigits, this]
  rfl

theorem natDigits_ne_nil (n : Nat) : natDigits n ≠ [] :=
  natDigitsAux_ne_nil (n + 1) n (Nat.lt_succ_self n)

theorem splitSign_of_digit (c : Char) (cs : QString) (h : (digitVal c).isSome = true) :
    splitSign (c :: cs) = (false, c :: cs) := by
  unfold splitSign
  split
  · rename_i heq
    simp only [List.cons.injEq] at heq
    rw [heq.1] at h
    exact absurd h (by decide)
  · rename_i heq
    simp only [List.cons.injEq] at heq
    rw [heq.1] at h
    exact absurd h (by decide)
  · rfl

theorem toInt_of_digits (neg : Bool) (body : QString) (v cnt : Nat)
    (hs : spanDigits body 0 0 = (v, cnt, [])) (hc : cnt ≠ 0) (t : QString)
    (ht : splitSign (trimmed t) = (neg, body))
    (h1 : -2147483648 ≤ (if neg then -(v : Int) else (v : Int)))
    (h2 : (if neg then -(v : Int) else (v : Int)) ≤ 2147483647) :
    toInt t = (true, if neg then -(v : Int) else (v : Int)) := by
  unfold toInt
  rw [ht]
  simp only [hs, hc, if_false]
  rw [if_pos ⟨h1, h2⟩]

/-- Qt function `QString::number(int)` followed by `toInt` gives the `int` back. -/
theorem toInt_numberInt (q : Int) (h1 : -2147483648 ≤ q) (h2 : q ≤ 2147483647) :
    toInt (numberInt q) = (true, q) := by
  have hlen : (natDigits q.natAbs).length ≠ 0 := by
    intro h
    exact natDigits_ne_nil _ (List.length_eq_zero.1 h)
  by_cases hq : q < 0
  · have hs : ∀ c ∈ numberInt q, isSpace c = false := by
      intro c hc
      simp only [numberInt, hq, if_true, List.mem_cons] at hc
      rcases hc with rfl | hc
      · rfl
      · exact isSpace_of_digit c (natDigits_all_digits _ c hc)
    have e : (if true = true then -(q.natAbs : Int) else (q.natAbs : Int)) = q := by
      rw [if_pos rfl]; omega
    have := toInt_of_digits true (natDigits q.natAbs) q.natAbs _ (spanDigits_natDigits _) hlen
      (numberInt q)
      (by rw [trimmed_of_no_space _ hs]; simp only [numberInt, hq, if_true, splitSign])
      (by rw [e]; exact h1) (by rw [e]; exact h2)
    rw [this, e]
  · have hs : ∀ c ∈ numberInt q, isSpace c = false := by
      intro c hc
      simp only [numberInt, hq, if_false] at hc
      exact isSpace_of_digit c (natDigits_all_digits _ c hc)
    obtain ⟨c, cs, hcs⟩ := List.exists_cons_of_ne_nil (natDigits_ne_nil q.natAbs)
    have hd : (digitVal c).isSome = true :=
      natDigits_all_digits q.natAbs c (by rw [hcs]; exact List.mem_cons_self _ _)
    have hsp : splitSign (natDigits q.natAbs) = (false, natDigits q.natAbs) := by
      rw [hcs]; exact splitSign_of_digit c cs hd
    have e : (if false = true then -(q.natAbs : Int) else (q.natAbs : Int)) = q := by
      rw [if_neg (by decide)]; omega
    have := toInt_of_digits false (natDigits q.natAbs) q.natAbs _ (spanDigits_natDigits _) hlen
      (numberInt q) (by rw [trimmed_of_no_space _ hs]; simp only [numberInt, hq, if_false, hsp])
      (by rw [e]; exact h1) (by rw [e]; exact h2)
    rw [this, e]

theorem toInt_range (t : QString) :
    -2147483648 ≤ (toInt t).2 ∧ (toInt t).2 ≤ 2147483647 := by
  unfold toInt
  simp only
  split
  · split_ifs <;> simp_all
  · simp

theorem toLowerAscii_of_digit (c : Char) (h : (digitVal c).isSome = true) :
    toLowerAscii c = c := by
  unfold digitVal at h
  by_cases hc : 48 ≤ c.toNat ∧ c.toNat ≤ 57
  · unfold toLowerAscii
    rw [if_neg (by omega)]
  · simp [hc] at h

theorem digit_ne_of_not_digit (c d : Char) (h : (digitVal c).isSome = true)
    (hd : (digitVal d).isSome = false) : c ≠ d := by
  intro e
  rw [e, hd] at h
  exact absurd h (by decide)

/-- A text that starts with a digit never converts to a negative double or a NaN. -/
theorem toDouble_geZero_of_digit_head (c : Char) (rest : QString)
    (h : (digitVal c).isSome = true) : (toDouble (c :: rest)).2.geZero = true := by
  obtain ⟨r, hr⟩ := trimmed_cons_of_not_space c rest (isSpace_of_digit c h)
  unfold toDouble
  simp only [hr, List.map_cons, toLowerAscii_of_digit c h]
  have hn : c ≠ 'n' := digit_ne_of_not_digit c 'n' h (by decide)
  have hi : c ≠ 'i' := digit_ne_of_not_digit c 'i' h (by decide)
  have hp : c ≠ '+' := digit_ne_of_not_digit c '+' h (by decide)
  have hm : c ≠ '-' := digit_ne_of_not_digit c '-' h (by decide)
  have e1 : ¬ (c :: List.map toLowerAscii r = "nan".toList) := by
    intro e; exact hn (List.cons.inj e).1
  have e2 : ¬ (c :: List.map toLowerAscii r = "inf".toList ∨
      c :: List.map toLowerAscii r = "+inf".toList) := by
    rintro (e | e)
    · exact hi (List.cons.inj e).1
    · exact hp (List.cons.inj e).1
  have e3 : ¬ (c :: List.map toLowerAscii r = "-inf".toList) := by
    intro e; exact hm (List.cons.inj e).1
  rw [if_neg e1, if_neg e2, if_neg e3, splitSign_of_digit c _ h]
  simp only
  split
  · rfl
  · split
    · rfl
    · split_ifs <;> rfl

theorem chopZeros_subset (s : QString) : ∀ c ∈ chopZeros s, c ∈ s := by
  induction s with
  | nil => intro c hc; simp [chopZeros] at hc
  | cons d ds ih =>
    intro c hc
    rw [chopZeros] at hc
    cases hr : chopZeros ds with
    | nil =>
      rw [hr] at hc
      simp only at hc
      split_ifs at hc
      · simp at hc
      · simp only [List.mem_singleton] at hc
        rw [hc]; exact List.mem_cons_self _ _
    | cons x xs =>
      rw [hr] at hc
      simp only [List.mem_cons] at hc
      rcases hc with rfl | hc
      · exact List.mem_cons_self _ _
      · exact List.mem_cons_of_mem _ (ih c (by rw [hr]; exact List.mem_cons.2 hc))

theorem exponentForm_head (ds : QString) (x : Int)
    (h : ∀ c ∈ ds, (digitVal c).isSome = true) :
    ∃ c rest, exponentForm ds x = c :: rest ∧ (digitVal c).isSome = true := by
  unfold exponentForm
  match ds, h with
  | [], _ => exact ⟨'0', _, rfl, by decide⟩
  | [c], h => exact ⟨c, _, rfl, h c (List.mem_cons_self _ _)⟩
  | c :: d :: cs, h => exact ⟨c, _, rfl, h c (List.mem_cons_self _ _)⟩

theorem decimalForm_head (ds : QString) (decpt : Int)
    (h : ∀ c ∈ ds, (digitVal c).isSome = true) :
    ∃ c rest, decimalForm ds decpt = c :: rest ∧ (digitVal c).isSome = true := by
  unfold decimalForm
  by_cases h1 : decpt ≤ 0
  · rw [if_pos h1]; exact ⟨'0', _, rfl, by decide⟩
  · rw [if_neg h1]
    cases ds with
    | nil =>
      have hpos : decpt.toNat - 0 = (decpt.toNat - 1) + 1 := by omega
      simp only [List.length_nil, Nat.cast_zero, List.nil_append]
      rw [if_pos (by omega), hpos, List.replicate_succ]
      exact ⟨'0', _, rfl, by decide⟩
    | cons c cs =>
      have hc := h c (List.mem_cons_self _ _)
      by_cases h2 : ((c :: cs).length : Int) ≤ decpt
      · rw [if_pos h2]; exact ⟨c, _, rfl, hc⟩
      · rw [if_neg h2]
        have hpos : decpt.toNat = (decpt.toNat - 1) + 1 := by omega
        rw [hpos, List.take_succ_cons]
        exact ⟨c, _, rfl, hc⟩

/-- The text of a positive finite double starts with a digit. -/
theorem numberDouble_fin_head (m : Nat) (e : Int) :
    ∃ c rest, numberDouble (.fin false m e) = c :: rest ∧ (digitVal c).isSome = true := by
  have hds : ∀ v : Nat, ∀ c ∈ chopZeros (natDigits v), (digitVal c).isSome = true :=
    fun v c hc => natDigits_all_digits v c (chopZeros_subset _ c hc)
  simp only [numberDouble, Bool.false_eq_true, if_false]
  by_cases hm : m = 0
  · rw [if_pos hm]; exact ⟨'0', [], rfl, by decide⟩
  · rw [if_neg hm]
    split_ifs
    · exact exponentForm_head _ _ (hds _)
    · exact decimalForm_head _ _ (hds _)

/-- The price that Save binds for an accepted price: the double that validation read,
printed by `QString::number` and read again by `toDouble`, is not negative and not a
NaN unless the double that validation read was a NaN. -/
theorem rebound_price_geZero (p : QDouble) (h1 : p.ltZero = false) (h2 : p.isNaN = false) :
    (toDouble (numberDouble p)).2.geZero = true := by
  cases p with
  | nan => simp [QDouble.isNaN] at h2
  | inf negative =>
    simp only [QDouble.ltZero] at h1
    subst h1
    decide
  | fin negative m e =>
    cases negative with
    | false =>
      obtain ⟨c, rest, hc, hd⟩ := numberDouble_fin_head m e
      rw [hc]
      exact toDouble_geZero_of_digit_head c rest hd
    | true =>
      simp only [QDouble.ltZero, Bool.true_and, bne_eq_false_iff_eq] at h1
      subst h1
      simp only [numberDouble, if_true]
      decide

theorem geZero_not_nan (p : QDouble) (h : p.geZero = true) : p.isNaN = false := by
  cases p <;> simp_all [QDouble.geZero, QDouble.isNaN]

theorem geZero_not_ltZero (p : QDouble) (h : p.geZero = true) : p.ltZero = false := by
  cases p with
  | nan => rfl
  | inf negative => simpa [QDouble.geZero, QDouble.ltZero] using h
  | fin negative m e =>
    simp only [QDouble.geZero, Bool.or_eq_true, Bool.not_eq_true', beq_iff_eq] at h
    simp only [QDouble.ltZero, Bool.and_eq_false_iff, bne_eq_false_iff_eq]
    exact h

theorem geZero_of_not_ltZero (p : QDouble) (h1 : p.ltZero = false) (h2 : p.isNaN = false) :
    p.geZero = true := by
  cases p with
  | nan => simp [QDouble.isNaN] at h2
  | inf negative => simpa [QDouble.geZero, QDouble.ltZero] using h1
  | fin negative m e =>
    simp only [QDouble.ltZero, Bool.and_eq_false_iff, bne_eq_false_iff_eq] at h1
    simp only [QDouble.geZero, Bool.or_eq_true, Bool.not_eq_true', beq_iff_eq]
    exact h1

theorem storedReal_geZero (p : QDouble) (h : p.geZero = true) :
    (storedReal p).geZero = true := by
  unfold storedReal
  split
  · rfl
  · exact h

theorem storedReal_isNaN (p : QDouble) : (storedReal p).isNaN = p.isNaN := by
  unfold storedReal
  split <;> rfl

theorem priceRejected_false_iff (t : QString) :
    priceRejected t = false ↔ (toDouble t).1 = true ∧ (toDouble t).2.geZero = true := by
  simp [priceRejected]

theorem natDigitsAux_length_le (fuel : Nat) :
    ∀ (n k : Nat), n < 10 ^ (k + 1) → (natDigitsAux fuel n []).length ≤ k + 1 := by
  induction fuel with
  | zero => intro n k _; simp [natDigitsAux]
  | succ f ih =>
    intro n k h
    unfold natDigitsAux
    by_cases h10 : n < 10
    · simp [h10]
    · simp only [h10, if_false]
      rw [natDigitsAux_append, List.length_append, List.length_singleton]
      cases k with
      | zero => simp at h; omega
      | succ k =>
        have : n / 10 < 10 ^ (k + 1) := by
          rw [Nat.div_lt_iff_lt_mul (by norm_num)]
          rw [pow_succ] at h
          exact h
        have := ih (n / 10) k this
        omega

theorem spanDigits_zeros (k : Nat) :
    ∀ (s : QString) (cnt : Nat),
      spanDigits (List.replicate k '0' ++ s) 0 cnt = spanDigits s 0 (cnt + k) := by
  induction k with
  | zero => intro s cnt; rfl
  | succ k ih =>
    intro s cnt
    rw [List.replicate_succ, List.cons_append,
      spanDigits_cons_digit '0' _ 0 cnt 0 (by decide), ih]
    congr 1
    omega

theorem readField_padLeft (w n : Nat) (h : (natDigits n).length ≤ w) :
    readField w (padLeft w (natDigits n)) = some n ∧ (padLeft w (natDigits n)).length = w := by
  have h1 := spanDigits_natDigitsAux (n + 1) n (Nat.lt_succ_self n) [] 0
    (0 + (w - (natDigits n).length))
  simp only [List.append_nil, Nat.zero_mul] at h1
  refine ⟨?_, ?_⟩
  · unfold readField padLeft
    rw [spanDigits_zeros]
    change (match spanDigits (natDigitsAux (n + 1) n []) 0 (0 + (w - (natDigits n).length)) with
      | (v, cnt, []) => if cnt = w then some v else none
      | _ => none) = some n
    rw [h1]
    simp only [spanDigits, Nat.zero_add]
    rw [if_pos]
    change w - (natDigits n).length + (natDigits n).length = w
    omega
  · simp only [padLeft, List.length_append, List.length_replicate]
    omega

theorem daysInMonth_le (y m : Nat) : daysInMonth y m ≤ 31 := by
  unfold daysInMonth
  split_ifs <;> omega

theorem list_length_four {α : Type} (l : List α) (h : l.length = 4) :
    ∃ a b c d, l = [a, b, c, d] := by
  match l, h with
  | [a, b, c, d], _ => exact ⟨a, b, c, d, rfl⟩

theorem list_length_two {α : Type} (l : List α) (h : l.length = 2) : ∃ a b, l = [a, b] := by
  match l, h with
  | [a, b], _ => exact ⟨a, b, rfl⟩

/-- A date with a year of at most four digits, written as `yyyy-MM-dd`, is read back
as the same date. -/
theorem fromString_toString (d : QDate) (hv : d.isValid = true) (hy : d.year ≤ 9999) :
    QDate.fromString d.toString = d := by
  have hv1 := hv
  simp only [QDate.isValid, decide_eq_true_eq] at hv1
  obtain ⟨_, _, hm, _, hd⟩ := hv1
  have hd31 := daysInMonth_le d.year d.month
  obtain ⟨ry, ly⟩ := readField_padLeft 4 d.year
    (natDigitsAux_length_le _ d.year 3 (by norm_num; omega))
  obtain ⟨rm, lm⟩ := readField_padLeft 2 d.month
    (natDigitsAux_length_le _ d.month 1 (by norm_num; omega))
  obtain ⟨rd, ld⟩ := readField_padLeft 2 d.day
    (natDigitsAux_length_le _ d.day 1 (by norm_num; omega))
  obtain ⟨y1, y2, y3, y4, ey⟩ := list_length_four _ ly
  obtain ⟨m1, m2, em⟩ := list_length_two _ lm
  obtain ⟨d1, d2, ed⟩ := list_length_two _ ld
  rw [ey] at ry
  rw [em] at rm
  rw [ed] at rd
  simp only [QDate.toString, hv, if_true, ey, em, ed]
  simp only [QDate.fromString, List.cons_append, List.nil_append, List.length_cons,
    List.length_nil, List.get?, List.take, List.drop, ry, rm, rd, true_and, and_self, if_true]
  rw [if_pos hv]

/-! ## Remove selected rows -/

theorem removeRowsDown_block (k : Nat) :
    ∀ (g : Grid) (t : Nat), t + k ≤ g.length →
      removeRowsDown g (((t + k : Nat) : Int) - 1) k = g.take t ++ g.drop (t + k) := by
  induction k with
  | zero => intro g t _; simp [removeRowsDown]
  | succ k ih =>
    intro g t h
    have hrow : (((t + (k + 1) : Nat) : Int) - 1) = ((t + k : Nat) : Int) := by
      push_cast; omega
    rw [removeRowsDown, hrow]
    have hrem : removeRow g ((t + k : Nat) : Int) = g.eraseIdx (t + k) := by
      unfold removeRow
      rw [if_neg (by omega)]
      rfl
    rw [hrem, ih (g.eraseIdx (t + k)) t (by rw [List.length_eraseIdx]; split_ifs <;> omega),
      List.eraseIdx_eq_take_drop_succ]
    have h1 : (List.take (t + k) g ++ List.drop (t + k + 1) g).take t = g.take t := by
      rw [List.take_append_of_le_length (by rw [List.length_take]; omega), List.take_take]
      congr 1
      omega
    have h2 : (List.take (t + k) g ++ List.drop (t + k + 1) g).drop (t + k) =
        g.drop (t + (k + 1)) := by
      have hl : (List.take (t + k) g).length = t + k := by rw [List.length_take]; omega
      rw [List.drop_append_eq_append_drop, hl]
      simp only [Nat.sub_self, List.drop_zero]
      rw [List.drop_eq_nil_of_le (by omega)]
      rfl
    rw [h1, h2]

theorem keepUnselected_append (rs : List SelectionRange) (xs ys : Grid) :
    ∀ i, keepUnselected rs i (xs ++ ys) =
      keepUnselected rs i xs ++ keepUnselected rs (i + xs.length) ys := by
  induction xs with
  | nil => intro i; simp [keepUnselected]
  | cons x xs ih =>
    intro i
    have e : i + (x :: xs).length = i + 1 + xs.length := by simp; omega
    rw [List.cons_append, keepUnselected, keepUnselected, ih (i + 1), e]
    split_ifs
    · rfl
    · rw [List.cons_append]

theorem keepUnselected_congr (rs rs1 : List SelectionRange) (xs : Grid) :
    ∀ i, (∀ j, i ≤ j → j < i + xs.length → isSelected rs j = isSelected rs1 j) →
      keepUnselected rs i xs = keepUnselected rs1 i xs := by
  induction xs with
  | nil => intro i _; rfl
  | cons x xs ih =>
    intro i h
    have h0 := h i (le_refl _) (by simp)
    have ht := ih (i + 1) (fun j hj1 hj2 => h j (by omega) (by simp; omega))
    simp only [keepUnselected, h0, ht]

theorem keepUnselected_none (rs : List SelectionRange) (xs : Grid) :
    ∀ i, (∀ j, i ≤ j → j < i + xs.length → isSelected rs j = false) →
      keepUnselected rs i xs = xs := by
  induction xs with
  | nil => intro i _; rfl
  | cons x xs ih =>
    intro i h
    have h0 := h i (le_refl _) (by simp)
    have ht := ih (i + 1) (fun j hj1 hj2 => h j (by omega) (by simp; omega))
    simp [keepUnselected, h0, ht]

theorem keepUnselected_all (rs : List SelectionRange) (xs : Grid) :
    ∀ i, (∀ j, i ≤ j → j < i + xs.length → isSelected rs j = true) →
      keepUnselected rs i xs = [] := by
  induction xs with
  | nil => intro i _; rfl
  | cons x xs ih =>
    intro i h
    have h0 := h i (le_refl _) (by simp)
    have ht := ih (i + 1) (fun j hj1 hj2 => h j (by omega) (by simp; omega))
    simp [keepUnselected, h0, ht]

theorem descendingRanges_mono (rs : List SelectionRange) (b b1 : Int) (hb : b ≤ b1)
    (h : descendingRanges b rs) : descendingRanges b1 rs := by
  cases rs with
  | nil => trivial
  | cons r rs =>
    obtain ⟨h1, h2, h3, h4⟩ := h
    exact ⟨h1, h2, by omega, h4⟩

theorem descendingRanges_selected_lt (rs : List SelectionRange) :
    ∀ (b : Int), descendingRanges b rs →
      ∀ j : Nat, isSelected rs j = true → (j : Int) < b := by
  induction rs with
  | nil => intro b _ j hj; simp [isSelected] at hj
  | cons r rs ih =>
    intro b h j hj
    obtain ⟨h1, h2, h3, h4⟩ := h
    simp only [isSelected, List.any_cons, Bool.or_eq_true, Bool.and_eq_true,
      decide_eq_true_eq] at hj
    rcases hj with hj | hj
    · omega
    · have := ih r.topRow h4 j (by simpa [isSelected] using hj)
      omega

/-- When the ranges of the selection are listed from the bottom of the table upwards,
`on_removeItemButton_clicked` removes exactly the selected rows: what is left are the
rows that no range covers, in their original order. -/
theorem remove_descending_ranges (rs : List SelectionRange) :
    ∀ (g : Grid), descendingRanges g.length rs →
      on_removeItemButton_clicked g rs = unselectedRows g rs := by
  induction rs with
  | nil =>
    intro g _
    rw [on_removeItemButton_clicked, unselectedRows,
      keepUnselected_none [] g 0 (fun j _ _ => by simp [isSelected])]
  | cons r rs ih =>
    intro g h
    obtain ⟨h1, h2, h3, h4⟩ := h
    obtain ⟨t, ht⟩ := Int.eq_ofNat_of_zero_le h1
    obtain ⟨b, hb⟩ := Int.eq_ofNat_of_zero_le (le_trans h1 h2)
    have htb : t ≤ b := by omega
    have hbl : b < g.length := by omega
    have hcount : r.rowCount = b - t + 1 := by
      unfold SelectionRange.rowCount
      omega
    have hbot : r.bottomRow = (((t + (b - t + 1) : Nat) : Int) - 1) := by
      push_cast
      omega
    have hg1 : removeRowsDown g r.bottomRow r.rowCount = g.take t ++ g.drop (b + 1) := by
      rw [hcount, hbot, removeRowsDown_block (b - t + 1) g t (by omega)]
      congr 2
      omega
    have hsel_lt : ∀ j : Nat, isSelected rs j = true → j < t := by
      intro j hj
      have := descendingRanges_selected_lt rs r.topRow h4 j hj
      omega
    have hlen_take : (g.take t).length = t := by rw [List.length_take]; omega
    rw [on_removeItemButton_clicked, hg1, ih _ (descendingRanges_mono rs r.topRow _
      (by rw [List.length_append, hlen_take]; omega) h4)]
    unfold unselectedRows
    have hsplit : g = g.take t ++ ((g.drop t).take (b - t + 1) ++ g.drop (b + 1)) := by
      have e1 : (g.drop t).drop (b - t + 1) = g.drop (b + 1) := by
        rw [List.drop_drop]
        congr 1
        omega
      rw [← e1, List.take_append_drop, List.take_append_drop]
    have hmid : ((g.drop t).take (b - t + 1)).length = b - t + 1 := by
      rw [List.length_take, List.length_drop]
      omega
    rw [keepUnselected_append, hlen_take, Nat.zero_add]
    conv_rhs => rw [hsplit, keepUnselected_append, keepUnselected_append, hlen_take, hmid,
      Nat.zero_add]
    have p1 : keepUnselected (r :: rs) 0 (g.take t) = keepUnselected rs 0 (g.take t) := by
      apply keepUnselected_congr
      intro j _ hj
      rw [hlen_take] at hj
      simp only [isSelected, List.any_cons]
      have : (decide (r.topRow ≤ (j : Int)) && decide ((j : Int) ≤ r.bottomRow)) = false := by
        simp only [Bool.and_eq_false_iff, decide_eq_false_iff_not]
        omega
      rw [this, Bool.false_or]
    have p2 : keepUnselected (r :: rs) t ((g.drop t).take (b - t + 1)) = [] := by
      apply keepUnselected_all
      intro j hj1 hj2
      rw [hmid] at hj2
      simp only [isSelected, List.any_cons, Bool.or_eq_true, Bool.and_eq_true,
        decide_eq_true_eq]
      left
      omega
    have hnone : ∀ j : Nat, t ≤ j → isSelected rs j = false := by
      intro j hj
      by_contra hc
      have := hsel_lt j (by simpa using hc)
      omega
    have p3 : keepUnselected (r :: rs) (t + (b - t + 1)) (g.drop (b + 1)) = g.drop (b + 1) := by
      apply keepUnselected_none
      intro j hj1 _
      simp only [isSelected, List.any_cons, Bool.or_eq_false_iff, Bool.and_eq_false_iff,
        decide_eq_false_iff_not]
      refine ⟨by omega, ?_⟩
      have := hnone j (by omega)
      simpa [isSelected] using this
    have p4 : keepUnselected rs t (g.drop (b + 1)) = g.drop (b + 1) :=
      keepUnselected_none rs _ t (fun j hj1 _ => hnone j hj1)
    rw [p1, p2, p3, p4, List.nil_append]

/-- Witness: rows 3 to 4 and then row 1 of five rows, listed bottom-up. -/
theorem remove_descending_ranges_witness :
    on_removeItemButton_clicked fiveRows [⟨3, 4⟩, ⟨1, 1⟩] =
      unselectedRows fiveRows [⟨3, 4⟩, ⟨1, 1⟩] :=
  remove_descending_ranges [⟨3, 4⟩, ⟨1, 1⟩] fiveRows
    ⟨by decide, by decide, by decide, by decide, by decide, by decide, trivial⟩

/-- C1 at a selection listed top-down: of five rows `a` to `e`, rows 0 and 2 (`a`
and `c`) are selected, in the ranges `[0,0]` and `[2,2]` in this order. The slot
removes `a` and then the row that has meanwhile become row 2, which is `d`; the
selected row `c` stays and the unselected row `d` is gone. -/
theorem remove_ascending_ranges_removes_wrong_row :
    on_removeItemButton_clicked fiveRows [⟨0, 0⟩, ⟨2, 2⟩] =
        [textRow "b" "1" "0.0", textRow "c" "1" "0.0", textRow "e" "1" "0.0"] ∧
      unselectedRows fiveRows [⟨0, 0⟩, ⟨2, 2⟩] =
        [textRow "b" "1" "0.0", textRow "d" "1" "0.0", textRow "e" "1" "0.0"] := by
  decide

/-! ## Validation -/

theorem checkRow_error_isValidation (junk : Nat → Nat → Bool) (i : Nat) (r : Row)
    (e : SaveReport) (h : checkRow junk i r = .error e) : e.isValidation = true := by
  unfold checkRow at h
  split_ifs at h <;> cases h <;> rfl

theorem checkRow_ok_not_rejected (junk : Nat → Nat → Bool) (i : Nat) (r : Row)
    (it : Item) (h : checkRow junk i r = .ok it) (hnan : r.priceNotNaN) : ¬ r.rejected := by
  unfold checkRow at h
  split_ifs at h with h1 h2 h3
  rintro (⟨t, ht, hb⟩ | ⟨t, ht, hb⟩ | ⟨t, ht, hb⟩)
  · rw [ht] at h1; exact h1 hb
  · simp only [quantityCell, ht] at h2; exact h2 hb
  · simp only [priceCell, ht, Bool.or_eq_true, Bool.not_eq_true', not_or,
      Bool.not_eq_false, Bool.not_eq_true] at h3
    have hge := geZero_of_not_ltZero _ h3.2 (hnan t ht)
    simp [priceRejected, h3.1, hge] at hb

theorem validateRows_error_isValidation (junk : Nat → Nat → Bool) (rows : List Row) :
    ∀ (i : Nat) (e : SaveReport), validateRows junk i rows = .error e →
      e.isValidation = true := by
  induction rows with
  | nil => intro i e h; simp [validateRows] at h
  | cons r rs ih =>
    intro i e h
    unfold validateRows at h
    cases hc : checkRow junk i r with
    | error e1 =>
      rw [hc] at h
      cases h
      exact checkRow_error_isValidation junk i r _ hc
    | ok it =>
      rw [hc] at h
      cases hv : validateRows junk (i + 1) rs with
      | error e1 => rw [hv] at h; cases h; exact ih _ _ hv
      | ok items => rw [hv] at h; cases h

theorem validateRows_ok_not_rejected (junk : Nat → Nat → Bool) (rows : List Row) :
    ∀ (i : Nat) (items : List Item), validateRows junk i rows = .ok items →
      ∀ r ∈ rows, r.priceNotNaN → ¬ r.rejected := by
  induction rows with
  | nil => intro i items _ r hr; cases hr
  | cons r rs ih =>
    intro i items h r1 hr1 hnan
    unfold validateRows at h
    cases hc : checkRow junk i r with
    | error e1 => rw [hc] at h; cases h
    | ok it =>
      rw [hc] at h
      cases hv : validateRows junk (i + 1) rs with
      | error e1 => rw [hv] at h; cases h
      | ok its =>
        rcases List.mem_cons.1 hr1 with rfl | hmem
        · exact checkRow_ok_not_rejected junk i _ it hc hnan
        · exact ih _ _ hv r1 hmem hnan

/-! ## Save -/

theorem validateRows_length (junk : Nat → Nat → Bool) (rows : List Row) :
    ∀ (i : Nat) (items : List Item), validateRows junk i rows = .ok items →
      items.length = rows.length := by
  induction rows with
  | nil => intro i items h; simp [validateRows] at h; simp [← h]
  | cons r rs ih =>
    intro i items h
    unfold validateRows at h
    cases hc : checkRow junk i r with
    | error e1 => rw [hc] at h; cases h
    | ok it =>
      rw [hc] at h
      cases hv : validateRows junk (i + 1) rs with
      | error e1 => rw [hv] at h; cases h
      | ok its =>
        rw [hv] at h
        cases h
        simp [ih _ _ hv]

theorem transaction_true (c c1 : Conn) (ok : Bool) (h : c.transaction ok = (true, c1)) :
    ok = true ∧ c.snapshot = none ∧ c1.tables = c.tables ∧ c1.snapshot = some c.tables := by
  unfold Conn.transaction at h
  split_ifs at h with h1
  · simp only [Bool.and_eq_true, Option.isNone_iff_eq_none] at h1
    cases h
    exact ⟨h1.1, h1.2, rfl, rfl⟩
  · simp at h

theorem transaction_false (c c1 : Conn) (ok : Bool) (h : c.transaction ok = (false, c1)) :
    c1.tables = c.tables ∧ c1.snapshot = c.snapshot := by
  unfold Conn.transaction at h
  split_ifs at h with h1
  · simp at h
  · cases h
    exact ⟨rfl, rfl⟩

theorem insertInvoice_some (c c1 : Conn) (ok : Bool) (customer date : QString) (newId : Int)
    (h : c.insertInvoice ok customer date = (some newId, c1)) :
    ok = true ∧ c1.snapshot = c.snapshot ∧
      newId = maxId (c.tables.invoices.map Invoice.id) c.tables.seqInvoices + 1 ∧
      c1.tables.invoices = c.tables.invoices ++ [⟨newId, customer, date⟩] ∧
      c1.tables.invoice_items = c.tables.invoice_items := by
  unfold Conn.insertInvoice at h
  split_ifs at h with h1
  · cases h
    exact ⟨h1, rfl, rfl, rfl, rfl⟩
  · simp at h

theorem insertInvoice_none (c c1 : Conn) (ok : Bool) (customer date : QString)
    (h : c.insertInvoice ok customer date = (none, c1)) : c1.snapshot = c.snapshot := by
  unfold Conn.insertInvoice at h
  split_ifs at h with h1
  · simp at h
  · cases h
    rfl

theorem insertItem_snapshot (c : Conn) (ok : Bool) (invoiceId : Int) (name : QString)
    (quantity : Int) (price : QDouble) :
    (c.insertItem ok invoiceId name quantity price).2.snapshot = c.snapshot := by
  unfold Conn.insertItem
  split_ifs <;> rfl

theorem insertItem_true (c c1 : Conn) (ok : Bool) (invoiceId : Int) (name : QString)
    (quantity : Int) (price : QDouble)
    (h : c.insertItem ok invoiceId name quantity price = (true, c1)) :
    ok = true ∧ price.isNaN = false ∧ c1.tables.invoices = c.tables.invoices ∧
      ∃ newId, c1.tables.invoice_items =
        c.tables.invoice_items ++ [⟨newId, invoiceId, name, quantity, storedReal price⟩] := by
  unfold Conn.insertItem at h
  split_ifs at h with h1
  · simp only [Bool.and_eq_true, Bool.not_eq_true'] at h1
    cases h
    exact ⟨h1.1, h1.2, rfl, _, rfl⟩
  · simp at h

theorem insertItems_snapshot (ok : Nat → Bool) (invoiceId : Int) (items : List Item) :
    ∀ (k : Nat) (c : Conn), (insertItems ok invoiceId k items c).2.snapshot = c.snapshot := by
  induction items with
  | nil => intro k c; rfl
  | cons it its ih =>
    intro k c
    rw [insertItems]
    have hs := insertItem_snapshot c (ok k) invoiceId it.name (toInt it.quantity).2
      (toDouble it.price).2
    cases hi : c.insertItem (ok k) invoiceId it.name (toInt it.quantity).2
        (toDouble it.price).2 with
    | mk b c1 =>
      rw [hi] at hs
      cases b with
      | false => exact hs
      | true =>
        simp only
        rw [ih]
        exact hs

theorem insertItems_true (ok : Nat → Bool) (invoiceId : Int) (items : List Item) :
    ∀ (k : Nat) (c c1 : Conn), insertItems ok invoiceId k items c = (true, c1) →
      (∀ j, j < items.length → ok (k + j) = true) ∧
      ∃ (newItems : List InvoiceItem),
        c1.tables.invoices = c.tables.invoices ∧
        c1.tables.invoice_items = c.tables.invoice_items ++ newItems ∧
        ∀ x ∈ newItems, x.invoice_id = invoiceId ∧ x.price.isNaN = false ∧
          ∃ it ∈ items, x.item_name = it.name ∧ x.quantity = (toInt it.quantity).2 ∧
            x.price = storedReal (toDouble it.price).2 := by
  induction items with
  | nil =>
    intro k c c1 h
    simp only [insertItems, Prod.mk.injEq, true_and] at h
    subst h
    exact ⟨fun j hj => by simp at hj, [], rfl, by simp, by simp⟩
  | cons it its ih =>
    intro k c c1 h
    rw [insertItems] at h
    cases hi : c.insertItem (ok k) invoiceId it.name (toInt it.quantity).2
        (toDouble it.price).2 with
    | mk b c2 =>
      rw [hi] at h
      cases b with
      | false => simp at h
      | true =>
        simp only at h
        obtain ⟨hall, newItems, h1, h2, h3⟩ := ih _ _ _ h
        obtain ⟨g1, g2, g3, newId, g4⟩ := insertItem_true _ _ _ _ _ _ _ hi
        refine ⟨?_, ⟨newId, invoiceId, it.name, (toInt it.quantity).2,
          storedReal (toDouble it.price).2⟩ :: newItems, by rw [h1, g3],
          by rw [h2, g4]; simp, ?_⟩
        · intro j hj
          cases j with
          | zero => exact g1
          | succ j =>
            have := hall j (by simpa using hj)
            rw [← this]
            congr 1
            omega
        · intro x hx
          rcases List.mem_cons.1 hx with rfl | hx
          · exact ⟨rfl, by rw [storedReal_isNaN]; exact g2, it, List.mem_cons_self _ _,
              rfl, rfl, rfl⟩
          · obtain ⟨a, b, it1, hit1, c⟩ := h3 x hx
            exact ⟨a, b, it1, List.mem_cons_of_mem _ hit1, c⟩

theorem commit_true (c c1 : Conn) (ok : Bool) (h : c.commit ok = (true, c1)) :
    ok = true ∧ c1.tables = c.tables ∧ c1.snapshot = none := by
  unfold Conn.commit at h
  split_ifs at h with h1
  · cases h
    exact ⟨h1, rfl, rfl⟩
  · simp at h

theorem commit_false (c c1 : Conn) (ok : Bool) (h : c.commit ok = (false, c1)) :
    c1.snapshot = c.snapshot := by
  unfold Conn.commit at h
  split_ifs at h with h1
  · simp at h
  · cases h
    rfl

theorem rollback_of_snapshot (c : Conn) (t : Tables) (h : c.snapshot = some t) :
    c.rollback.tables = t ∧ c.rollback.snapshot = none := by
  unfold Conn.rollback
  rw [h]
  exact ⟨rfl, rfl⟩

/-- What Save does once validation has produced `items`: the transaction, the inserts
and the commit, exactly as in `on_SaveInoviceButton_clicked`. -/
theorem save_unfold_ok (env : SaveEnv) (form : Form) (db : Conn) (items : List Item)
    (hc : (trimmed form.customer).isEmpty = false) (hg : form.grid.length ≠ 0)
    (hv : validateRows env.indeterminate 0 form.grid = .ok items) :
    on_SaveInoviceButton_clicked env form db =
      match db.transaction env.transactionOk with
      | (false, db1) => (.transactionFailed, form, db1)
      | (true, db1) =>
        match db1.insertInvoice env.insertInvoiceOk (trimmed form.customer)
            form.dateEdit.date.toString with
        | (none, db2) => (.insertInvoiceFailed, form, db2.rollback)
        | (some invoiceId, db2) =>
          match insertItems env.insertItemOk invoiceId 0 items db2 with
          | (false, db3) => (.insertItemFailed, form, db3.rollback)
          | (true, db3) =>
            match db3.commit env.commitOk with
            | (false, db4) => (.commitFailed, form, db4.rollback)
            | (true, db4) =>
              (.saved,
               { customer := [], dateEdit := form.dateEdit.setDate env.currentDate,
                 grid := [] },
               db4) := by
  simp only [on_SaveInoviceButton_clicked, hc, hg, hv, if_false, Bool.false_eq_true]

theorem save_validation_error (env : SaveEnv) (form : Form) (db : Conn) :
    (trimmed form.customer = [] →
      on_SaveInoviceButton_clicked env form db = (.customerEmpty, form, db)) ∧
    (trimmed form.customer ≠ [] → form.grid = [] →
      on_SaveInoviceButton_clicked env form db = (.noItems, form, db)) ∧
    (trimmed form.customer ≠ [] → form.grid ≠ [] → ∀ e,
      validateRows env.indeterminate 0 form.grid = .error e →
      on_SaveInoviceButton_clicked env form db = (e, form, db)) := by
  refine ⟨?_, ?_, ?_⟩
  · intro h
    simp [on_SaveInoviceButton_clicked, h]
  · intro h hg
    simp [on_SaveInoviceButton_clicked, h, hg]
  · intro h hg e hv
    simp [on_SaveInoviceButton_clicked, h, hg, hv]

/-- The two ways in which Save can end. Either it does not report success, the form is
untouched, and the tables and the transaction state of the connection are what they
were; or it reports success, every database call has succeeded, the form is reset, no
transaction is open, and the tables have gained one invoice and the items that the
insert loop has bound for the entries of `items`. -/
theorem save_outcome (env : SaveEnv) (form : Form) (db : Conn) :
    ((on_SaveInoviceButton_clicked env form db).1 ≠ .saved ∧
      (on_SaveInoviceButton_clicked env form db).2.1 = form ∧
      (on_SaveInoviceButton_clicked env form db).2.2.tables = db.tables ∧
      (on_SaveInoviceButton_clicked env form db).2.2.snapshot = db.snapshot) ∨
    ((on_SaveInoviceButton_clicked env form db).1 = .saved ∧
      (on_SaveInoviceButton_clicked env form db).2.1 =
        { customer := [], dateEdit := form.dateEdit.setDate env.currentDate, grid := [] } ∧
      (on_SaveInoviceButton_clicked env form db).2.2.snapshot = none ∧
      env.transactionOk = true ∧ env.insertInvoiceOk = true ∧ env.commitOk = true ∧
      (∀ k, k < form.grid.length → env.insertItemOk k = true) ∧
      trimmed form.customer ≠ [] ∧
      ∃ (items : List Item) (newId : Int) (newItems : List InvoiceItem),
        validateRows env.indeterminate 0 form.grid = .ok items ∧
        (on_SaveInoviceButton_clicked env form db).2.2.tables.invoices =
          db.tables.invoices ++
            [⟨newId, trimmed form.customer, form.dateEdit.date.toString⟩] ∧
        (on_SaveInoviceButton_clicked env form db).2.2.tables.invoice_items =
          db.tables.invoice_items ++ newItems ∧
        ∀ x ∈ newItems, x.invoice_id = newId ∧ x.price.isNaN = false ∧
          ∃ it ∈ items, x.item_name = it.name ∧ x.quantity = (toInt it.quantity).2 ∧
            x.price = storedReal (toDouble it.price).2) := by
  by_cases hc : trimmed form.customer = []
  · rw [(save_validation_error env form db).1 hc]
    exact Or.inl ⟨by simp, rfl, rfl, rfl⟩
  by_cases hg : form.grid = []
  · rw [(save_validation_error env form db).2.1 hc hg]
    exact Or.inl ⟨by simp, rfl, rfl, rfl⟩
  cases hv : validateRows env.indeterminate 0 form.grid with
  | error e =>
    rw [(save_validation_error env form db).2.2 hc hg e hv]
    refine Or.inl ⟨?_, rfl, rfl, rfl⟩
    intro he
    have he1 : e = .saved := he
    have := validateRows_error_isValidation _ _ _ _ hv
    rw [he1] at this
    exact absurd this (by decide)
  | ok items =>
    rw [save_unfold_ok env form db items (by simpa using hc) (by simpa using hg) hv]
    cases ht : db.transaction env.transactionOk with
    | mk b1 db1 =>
      cases b1 with
      | false =>
        obtain ⟨t1, t2⟩ := transaction_false _ _ _ ht
        exact Or.inl ⟨by simp, rfl, t1, t2⟩
      | true =>
        obtain ⟨t1, t2, t3, t4⟩ := transaction_true _ _ _ ht
        simp only
        cases hi : db1.insertInvoice env.insertInvoiceOk (trimmed form.customer)
            form.dateEdit.date.toString with
        | mk r2 db2 =>
          cases r2 with
          | none =>
            have hs := insertInvoice_none _ _ _ _ _ hi
            obtain ⟨r1, r2⟩ := rollback_of_snapshot db2 db.tables (by rw [hs, t4])
            exact Or.inl ⟨by simp, rfl, r1, by rw [r2, t2]⟩
          | some invoiceId =>
            obtain ⟨i1, i2, _, i4, i5⟩ := insertInvoice_some _ _ _ _ _ _ hi
            simp only
            have hs3 := insertItems_snapshot env.insertItemOk invoiceId items 0 db2
            cases hit : insertItems env.insertItemOk invoiceId 0 items db2 with
            | mk b3 db3 =>
              rw [hit] at hs3
              simp only at hs3
              cases b3 with
              | false =>
                obtain ⟨r1, r2⟩ := rollback_of_snapshot db3 db.tables (by rw [hs3, i2, t4])
                exact Or.inl ⟨by simp, rfl, r1, by rw [r2, t2]⟩
              | true =>
                simp only
                cases hcm : db3.commit env.commitOk with
                | mk b4 db4 =>
                  cases b4 with
                  | false =>
                    have hs4 := commit_false _ _ _ hcm
                    obtain ⟨r1, r2⟩ := rollback_of_snapshot db4 db.tables
                      (by rw [hs4, hs3, i2, t4])
                    exact Or.inl ⟨by simp, rfl, r1, by rw [r2, t2]⟩
                  | true =>
                    obtain ⟨c1, c2, c3⟩ := commit_true _ _ _ hcm
                    obtain ⟨hall, newItems, h1, h2, h3⟩ := insertItems_true _ _ _ _ _ _ hit
                    refine Or.inr ⟨rfl, rfl, c3, t1, i1, c1, ?_, hc, items, invoiceId, newItems,
                      rfl, ?_, ?_, h3⟩
                    · intro k hk
                      have := hall k (by rw [validateRows_length _ _ _ _ hv]; exact hk)
                      simpa using this
                    · simp only
                      rw [c2, h1, i4, t3]
                    · simp only
                      rw [c2, h2, i5, t3]

theorem checkRow_of_passes (junk : Nat → Nat → Bool) (i : Nat) (r : Row) (h : r.passes) :
    checkRow junk i r = .ok r.entry := by
  obtain ⟨n, q, p, rfl, hn, hq, hp⟩ := h
  simp only [nameBlank] at hn
  simp only [quantityRejected] at hq
  obtain ⟨hp1, hp2⟩ := (priceRejected_false_iff p).1 hp
  have hp3 := geZero_not_ltZero _ hp2
  simp only [checkRow, quantityCell, priceCell, hn, hq, hp1, hp3, Row.entry, Option.getD_some,
    if_false, Bool.false_eq_true, Bool.not_true, Bool.or_self]

theorem checkRow_of_firstViolation (junk : Nat → Nat → Bool) (i : Nat) (r : Row) (f : Field)
    (h : r.firstViolation f) (hnan : r.priceNotNaN) :
    checkRow junk i r = .error (rowReport f (i + 1)) := by
  cases f with
  | name =>
    obtain ⟨n, hn, hb⟩ := h
    simp only [nameBlank] at hb
    simp only [checkRow, hn, hb, rowReport, if_true]
  | quantity =>
    obtain ⟨n, q, hn, hb, hq, hr⟩ := h
    simp only [nameBlank] at hb
    simp only [quantityRejected] at hr
    simp only [checkRow, quantityCell, hn, hb, hq, hr, rowReport, if_true, if_false,
      Bool.false_eq_true]
  | price =>
    obtain ⟨n, q, p, hn, hb, hq, hr, hp, hpr⟩ := h
    simp only [nameBlank] at hb
    simp only [quantityRejected] at hr
    have hcode : (!(toDouble p).1 || (toDouble p).2.ltZero) = true := by
      by_contra hc
      simp only [Bool.or_eq_true, Bool.not_eq_true', not_or, Bool.not_eq_false,
        Bool.not_eq_true] at hc
      have hge := geZero_of_not_ltZero _ hc.2 (hnan p hp)
      simp [priceRejected, hc.1, hge] at hpr
    simp only [checkRow, quantityCell, priceCell, hn, hb, hq, hr, hp, hcode, rowReport, if_true,
      if_false, Bool.false_eq_true]

theorem validateRows_first_violation (junk : Nat → Nat → Bool) (rows : List Row) :
    ∀ (k i : Nat) (r : Row) (f : Field), rows[i]? = some r →
      (∀ j < i, ∀ x, rows[j]? = some x → x.passes) → r.firstViolation f → r.priceNotNaN →
      validateRows junk k rows = .error (rowReport f (k + i + 1)) := by
  induction rows with
  | nil => intro k i r f h; simp at h
  | cons x xs ih =>
    intro k i r f hi hpre hv hnan
    unfold validateRows
    cases i with
    | zero =>
      simp only [List.getElem?_cons_zero, Option.some.injEq] at hi
      subst hi
      rw [checkRow_of_firstViolation junk k x f hv hnan]
    | succ i =>
      have hx : x.passes := hpre 0 (Nat.succ_pos _) x (by simp)
      rw [checkRow_of_passes junk k x hx]
      simp only [List.getElem?_cons_succ] at hi
      have := ih (k + 1) i r f hi
        (fun j hj y hy => hpre (j + 1) (Nat.succ_lt_succ hj) y (by simpa using hy)) hv hnan
      rw [this]
      simp only
      congr 2
      omega

/-- Validation rejects before any write, for every input but a NaN price: when the
trimmed customer name is empty, or the grid has no rows, or some row whose price does
not read as a NaN holds a text that the specification rejects, Save ends with a
validation message, whatever the database calls would have answered, and hands back
the form and the connection exactly as they were: the same tables and counters, no
transaction opened, and not a single call added to the calls made on the
connection. -/
theorem save_rejects_unless_nan (env : SaveEnv) (form : Form) (db : Conn)
    (h : trimmed form.customer = [] ∨ form.grid = [] ∨
      ∃ r ∈ form.grid, r.rejected ∧ r.priceNotNaN) :
    ∃ msg, msg.isValidation = true ∧
      on_SaveInoviceButton_clicked env form db = (msg, form, db) := by
  by_cases hc : trimmed form.customer = []
  · exact ⟨.customerEmpty, rfl, (save_validation_error env form db).1 hc⟩
  by_cases hg : form.grid = []
  · exact ⟨.noItems, rfl, (save_validation_error env form db).2.1 hc hg⟩
  rcases h with h | h | ⟨r, hr, hrej, hnan⟩
  · exact absurd h hc
  · exact absurd h hg
  cases hv : validateRows env.indeterminate 0 form.grid with
  | error e =>
    exact ⟨e, validateRows_error_isValidation _ _ _ _ hv,
      (save_validation_error env form db).2.2 hc hg e hv⟩
  | ok items => exact absurd hrej (validateRows_ok_not_rejected _ _ _ _ hv r hr hnan)

/-- Witness: a quantity `abc` in the second row. -/
theorem save_rejects_unless_nan_witness :
    ∃ msg, msg.isValidation = true ∧
      on_SaveInoviceButton_clicked allSucceed
        (exampleForm "Bob" [textRow "Chips" "2" "1.50", textRow "Soda" "abc" "0.99"])
        emptyDatabase =
      (msg, exampleForm "Bob" [textRow "Chips" "2" "1.50", textRow "Soda" "abc" "0.99"],
        emptyDatabase) :=
  save_rejects_unless_nan allSucceed
    (exampleForm "Bob" [textRow "Chips" "2" "1.50", textRow "Soda" "abc" "0.99"]) emptyDatabase
    (Or.inr (Or.inr ⟨textRow "Soda" "abc" "0.99", by decide,
      Or.inr (Or.inl ⟨"abc".toList, rfl, by decide⟩),
      fun t ht => by
        simp only [textRow, Option.some.injEq] at ht
        subst ht
        decide⟩))

/-- C5 at the price `nan`: the text parses to a NaN, which is not a number and not at
least zero, so the specification rejects the row. The check `!priceOk || price < 0`
lets it pass, because `toDouble` sets `ok` and a NaN is not below zero. Save then
starts the transaction and executes the insert of the invoice and the insert of the
item, which fails on the `NOT NULL` constraint, and rolls back: a database error is
shown instead of a validation message, after three calls that change the database. -/
theorem save_nan_price_starts_transaction :
    toDouble "nan".toList = (true, .nan) ∧ priceRejected "nan".toList = true ∧
      (textRow "Chips" "2" "nan").rejected ∧
      on_SaveInoviceButton_clicked allSucceed
          (exampleForm "Bob" [textRow "Chips" "2" "nan"]) emptyDatabase =
        (.insertItemFailed, exampleForm "Bob" [textRow "Chips" "2" "nan"],
          { emptyDatabase with
            calls := [.transaction, .insertInvoice, .insertItem, .rollback] }) ∧
      SaveReport.isValidation .insertItemFailed = false :=
  ⟨by decide, by decide, Or.inr (Or.inr ⟨"nan".toList, rfl, by decide⟩), by decide,
    by decide⟩

/-- Fail-fast order of validation, for every input but a NaN price: an empty trimmed
customer name is reported first, whatever the grid holds; with a customer, an empty
grid is reported; with a customer and rows, if row `i` (0-based) is the first row that
does not satisfy the rules of the specification, `f` is its first failing field in
the order name, quantity, price, and its price does not read as a NaN, then the
message names field `f` and row number `i + 1`. -/
theorem save_reports_first_violation_unless_nan (env : SaveEnv) (form : Form) (db : Conn) :
    (trimmed form.customer = [] →
      (on_SaveInoviceButton_clicked env form db).1 = .customerEmpty) ∧
    (trimmed form.customer ≠ [] → form.grid = [] →
      (on_SaveInoviceButton_clicked env form db).1 = .noItems) ∧
    (trimmed form.customer ≠ [] → ∀ (i : Nat) (r : Row) (f : Field),
      form.grid[i]? = some r → (∀ j < i, ∀ x, form.grid[j]? = some x → x.passes) →
      r.firstViolation f → r.priceNotNaN →
      (on_SaveInoviceButton_clicked env form db).1 = rowReport f (i + 1)) := by
  refine ⟨?_, ?_, ?_⟩
  · intro h
    rw [(save_validation_error env form db).1 h]
  · intro h hg
    rw [(save_validation_error env form db).2.1 h hg]
  · intro h i r f hi hpre hv hnan
    have hg : form.grid ≠ [] := by
      intro hg
      rw [hg] at hi
      simp at hi
    have := validateRows_first_violation env.indeterminate form.grid 0 i r f hi hpre hv hnan
    rw [(save_validation_error env form db).2.2 h hg _ this]
    simp

/-- Witness: the first row passes, the second has a good name, a quantity of `0` and a
price of `-1`, the third a blank name; the message is about the quantity of row 2. -/
theorem save_reports_first_violation_unless_nan_witness :
    (on_SaveInoviceButton_clicked allSucceed
      (exampleForm "Bob"
        [textRow "Chips" "2" "1.50", textRow "Soda" "0" "-1", textRow " " "1" "1"])
      emptyDatabase).1 = .quantityInvalid 2 :=
  (save_reports_first_violation_unless_nan allSucceed
    (exampleForm "Bob"
      [textRow "Chips" "2" "1.50", textRow "Soda" "0" "-1", textRow " " "1" "1"])
    emptyDatabase).2.2 (by decide) 1 (textRow "Soda" "0" "-1") .quantity rfl
    (fun j hj x hx => by
      have hj0 : j = 0 := by omega
      subst hj0
      simp only [exampleForm, List.getElem?_cons_zero, Option.some.injEq] at hx
      subst hx
      exact ⟨_, _, _, rfl, by decide, by decide, by decide⟩)
    ⟨"Soda".toList, "0".toList, rfl, by decide, rfl, by decide⟩
    (fun t ht => by
      simp only [textRow, Option.some.injEq] at ht
      subst ht
      decide)

/-- Witness for the price field: the first row passes and the second has a price of
`-1`, which is reported for row 2. -/
theorem save_reports_negative_price :
    (on_SaveInoviceButton_clicked allSucceed
      (exampleForm "Bob" [textRow "Chips" "2" "1.50", textRow "Soda" "1" "-1"])
      emptyDatabase).1 = .priceInvalid 2 :=
  (save_reports_first_violation_unless_nan allSucceed
    (exampleForm "Bob" [textRow "Chips" "2" "1.50", textRow "Soda" "1" "-1"])
    emptyDatabase).2.2 (by decide) 1 (textRow "Soda" "1" "-1") .price rfl
    (fun j hj x hx => by
      have hj0 : j = 0 := by omega
      subst hj0
      simp only [exampleForm, List.getElem?_cons_zero, Option.some.injEq] at hx
      subst hx
      exact ⟨_, _, _, rfl, by decide, by decide, by decide⟩)
    ⟨"Soda".toList, "1".toList, "-1".toList, rfl, by decide, rfl, by decide, rfl, by decide⟩
    (fun t ht => by
      simp only [textRow, Option.some.injEq] at ht
      subst ht
      decide)

/-- C6 at a row with the price `nan`: in the grid `(Chips, 2, nan)`, `(Soda, 0, 1)`
the first row that breaks a rule of the specification is row 1, whose first failing
field is the price (a NaN is not a number that is at least zero); name and quantity
of row 1 are in order. Save lets row 1 pass, because a NaN is not below zero, and
reports the quantity of row 2. -/
theorem save_nan_row_reports_later_row :
    (exampleForm "Bob" [textRow "Chips" "2" "nan", textRow "Soda" "0" "1"]).grid[0]? =
        some (textRow "Chips" "2" "nan") ∧
      (textRow "Chips" "2" "nan").firstViolation .price ∧
      rowReport .price (0 + 1) = .priceInvalid 1 ∧
      (on_SaveInoviceButton_clicked allSucceed
        (exampleForm "Bob" [textRow "Chips" "2" "nan", textRow "Soda" "0" "1"])
        emptyDatabase).1 = .quantityInvalid 2 :=
  ⟨rfl, ⟨"Chips".toList, "2".toList, "nan".toList, rfl, by decide, rfl, by decide, rfl,
    by decide⟩, rfl, by decide⟩

/-- The rejected inputs that the specification lists: the quantities `0`, `-3` and
`abc`, the prices `-1` and `xyz`, a name of blanks; and inputs that pass: the
quantity `2`, the prices `1.50` and `0`. -/
theorem validation_examples :
    quantityRejected "0".toList = true ∧ quantityRejected "-3".toList = true ∧
      quantityRejected "abc".toList = true ∧ priceRejected "-1".toList = true ∧
      priceRejected "xyz".toList = true ∧ nameBlank "  ".toList = true ∧
      quantityRejected "2".toList = false ∧ priceRejected "1.50".toList = false ∧
      priceRejected "0".toList = false := by
  decide

/-- The two notions used for a row with all three cells cover every case and exclude
each other: such a row either satisfies the rules or has a first failing field. -/
theorem complete_row_passes_or_violates (r : Row) (h : r.complete) :
    (r.passes ∨ ∃ f, r.firstViolation f) ∧ ¬ (r.passes ∧ ∃ f, r.firstViolation f) := by
  obtain ⟨h1, h2, h3⟩ := h
  obtain ⟨n, hn⟩ := Option.isSome_iff_exists.1 h1
  obtain ⟨q, hq⟩ := Option.isSome_iff_exists.1 h2
  obtain ⟨p, hp⟩ := Option.isSome_iff_exists.1 h3
  have hr : r = ⟨some n, some q, some p⟩ := by
    cases r
    simp only at hn hq hp
    rw [hn, hq, hp]
  refine ⟨?_, ?_⟩
  · cases hbn : nameBlank n with
    | true => exact Or.inr ⟨.name, n, hn, hbn⟩
    | false =>
      cases hbq : quantityRejected q with
      | true => exact Or.inr ⟨.quantity, n, q, hn, hbn, hq, hbq⟩
      | false =>
        cases hbp : priceRejected p with
        | true => exact Or.inr ⟨.price, n, q, p, hn, hbn, hq, hbq, hp, hbp⟩
        | false => exact Or.inl ⟨n, q, p, hr, hbn, hbq, hbp⟩
  · rintro ⟨⟨n1, q1, p1, e, a1, a2, a3⟩, f, hf⟩
    rw [e] at hf
    cases f with
    | name =>
      obtain ⟨n2, e2, b⟩ := hf
      simp only [Option.some.injEq] at e2
      rw [← e2, a1] at b
      exact absurd b (by decide)
    | quantity =>
      obtain ⟨_, q2, _, _, e2, b⟩ := hf
      simp only [Option.some.injEq] at e2
      rw [← e2, a2] at b
      exact absurd b (by decide)
    | price =>
      obtain ⟨_, _, p2, _, _, _, _, e2, b⟩ := hf
      simp only [Option.some.injEq] at e2
      rw [← e2, a3] at b
      exact absurd b (by decide)

theorem Row.valid.passes {r : Row} (h : r.valid) : r.passes := by
  obtain ⟨n, q, p, rfl, hn, ⟨hq1, hq2⟩, ⟨hp1, hp2⟩⟩ := h
  refine ⟨n, q, p, rfl, ?_, ?_, ?_⟩
  · simp only [nameBlank, List.isEmpty_eq_false]
    exact hn
  · simp only [quantityRejected, hq1, Bool.not_true, Bool.false_or, decide_eq_false_iff_not]
    omega
  · exact (priceRejected_false_iff p).2 ⟨hp1, hp2⟩

theorem validateRows_of_passes (junk : Nat → Nat → Bool) (rows : List Row) :
    ∀ (i : Nat), (∀ r ∈ rows, r.passes) →
      validateRows junk i rows = .ok (rows.map Row.entry) := by
  induction rows with
  | nil => intro i _; rfl
  | cons r rs ih =>
    intro i h
    rw [validateRows, checkRow_of_passes junk i r (h r (List.mem_cons_self _ _)),
      ih (i + 1) (fun x hx => h x (List.mem_cons_of_mem _ hx))]
    rfl

theorem Row.valid.entry_stored {r : Row} (h : r.valid) :
    (r.entry.name, (toInt r.entry.quantity).2, storedReal (toDouble r.entry.price).2) =
        r.stored ∧
      (toDouble r.entry.price).2.geZero = true := by
  obtain ⟨n, q, p, rfl, hn, ⟨hq1, hq2⟩, ⟨hp1, hp2⟩⟩ := h
  simp only [Row.entry, Row.stored, Option.getD_some]
  rw [toInt_numberInt _ (toInt_range q).1 (toInt_range q).2]
  exact ⟨rfl, rebound_price_geZero _ (geZero_not_ltZero _ hp2) (geZero_not_nan _ hp2)⟩

theorem insertItems_ok (ok : Nat → Bool) (invoiceId : Int) (items : List Item)
    (hok : ∀ j, ok j = true) :
    ∀ (k : Nat) (c : Conn), (∀ it ∈ items, (toDouble it.price).2.isNaN = false) →
      ∃ (newItems : List InvoiceItem) (seq : Int) (calls : List DbCall),
        insertItems ok invoiceId k items c =
          (true, { tables := { c.tables with
                     invoice_items := c.tables.invoice_items ++ newItems
                     seqItems := seq }
                   snapshot := c.snapshot
                   calls := calls }) ∧
        newItems.map (fun x => (x.invoice_id, x.content)) =
          items.map (fun it => (invoiceId, it.name, (toInt it.quantity).2,
            storedReal (toDouble it.price).2)) := by
  induction items with
  | nil =>
    intro k c _
    exact ⟨[], c.tables.seqItems, c.calls, by simp [insertItems], rfl⟩
  | cons it its ih =>
    intro k c h
    have hnan := h it (List.mem_cons_self _ _)
    rw [insertItems]
    simp only [Conn.insertItem, hok, hnan, Bool.not_false, Bool.and_self, if_true]
    obtain ⟨newItems, seq, calls, he, hm⟩ := ih (k + 1)
      { c with
        tables := { c.tables with
          invoice_items := c.tables.invoice_items ++
            [⟨maxId (c.tables.invoice_items.map InvoiceItem.id) c.tables.seqItems + 1,
              invoiceId, it.name, (toInt it.quantity).2, storedReal (toDouble it.price).2⟩]
          seqItems := maxId (c.tables.invoice_items.map InvoiceItem.id) c.tables.seqItems + 1 }
        calls := c.calls ++ [.insertItem] }
      (fun x hx => h x (List.mem_cons_of_mem _ hx))
    refine ⟨⟨maxId (c.tables.invoice_items.map InvoiceItem.id) c.tables.seqItems + 1,
      invoiceId, it.name, (toInt it.quantity).2, storedReal (toDouble it.price).2⟩ ::
        newItems, seq, calls, ?_, ?_⟩
    · rw [he]
      simp
    · simp only [List.map_cons, hm]
      rfl

theorem le_maxId (ids : List Int) : ∀ (bound : Int),
    bound ≤ maxId ids bound ∧ ∀ i ∈ ids, i ≤ maxId ids bound := by
  induction ids with
  | nil => intro bound; simp [maxId]
  | cons x xs ih =>
    intro bound
    have h := ih (max bound x)
    simp only [maxId, List.foldl_cons] at h ⊢
    refine ⟨le_trans (le_max_left _ _) h.1, ?_⟩
    intro i hi
    rcases List.mem_cons.1 hi with rfl | hi
    · exact le_trans (le_max_right _ _) h.1
    · exact h.2 i hi

/-- C2. Save is all-or-nothing: if the start of the transaction, the insert of the
invoice, the insert of one of the items (the one with 0-based number `k`, for any `k`
below the number of rows) or the commit fails, then Save does not report success and
the connection afterwards holds the tables it held before: the same invoices, the same
invoice items, the same id counters; and no transaction is left open that was not open
before. The form is untouched as well. -/
theorem save_failure_leaves_database (env : SaveEnv) (form : Form) (db : Conn)
    (h : env.transactionOk = false ∨ env.insertInvoiceOk = false ∨
      (∃ k, k < form.grid.length ∧ env.insertItemOk k = false) ∨ env.commitOk = false) :
    (on_SaveInoviceButton_clicked env form db).1 ≠ .saved ∧
      (on_SaveInoviceButton_clicked env form db).2.1 = form ∧
      (on_SaveInoviceButton_clicked env form db).2.2.tables = db.tables ∧
      (on_SaveInoviceButton_clicked env form db).2.2.snapshot = db.snapshot := by
  rcases save_outcome env form db with hfail | ⟨_, _, _, e1, e2, e3, e4, _⟩
  · exact hfail
  · exfalso
    rcases h with h | h | ⟨k, hk, hf⟩ | h
    · rw [e1] at h; exact absurd h (by decide)
    · rw [e2] at h; exact absurd h (by decide)
    · rw [e4 k hk] at hf; exact absurd hf (by decide)
    · rw [e3] at h; exact absurd h (by decide)

/-- Witness for C2: the insert of the second of two items fails; the tables are
handed back as they were, after a transaction that was started and rolled back. -/
theorem save_failure_leaves_database_witness :
    (on_SaveInoviceButton_clicked (itemInsertFails 1) chipsAndSodaForm emptyDatabase).1 ≠
        .saved ∧
      (on_SaveInoviceButton_clicked (itemInsertFails 1) chipsAndSodaForm emptyDatabase).2.1 =
        chipsAndSodaForm ∧
      (on_SaveInoviceButton_clicked (itemInsertFails 1) chipsAndSodaForm
        emptyDatabase).2.2.tables = emptyDatabase.tables ∧
      (on_SaveInoviceButton_clicked (itemInsertFails 1) chipsAndSodaForm
        emptyDatabase).2.2.snapshot = emptyDatabase.snapshot :=
  save_failure_leaves_database (itemInsertFails 1) chipsAndSodaForm emptyDatabase
    (Or.inr (Or.inr (Or.inl ⟨1, by decide, by decide⟩)))

/-- The calls of the same failing Save, in order: the transaction is started, the
invoice and the first item are inserted, the insert of the second item fails, and the
transaction is rolled back. -/
theorem save_failure_calls :
    on_SaveInoviceButton_clicked (itemInsertFails 1) chipsAndSodaForm emptyDatabase =
      (.insertItemFailed, chipsAndSodaForm,
        { emptyDatabase with
          calls := [.transaction, .insertInvoice, .insertItem, .insertItem, .rollback] }) := by
  decide

/-- The result of Save for a valid form when every database call succeeds. -/
theorem save_valid_result (env : SaveEnv) (form : Form) (db : Conn)
    (hv : form.valid) (he : env.allOk db) :
    ∃ (newItems : List InvoiceItem) (seq : Int) (calls : List DbCall),
      on_SaveInoviceButton_clicked env form db =
        (.saved,
          { customer := [], dateEdit := form.dateEdit.setDate env.currentDate, grid := [] },
          { tables :=
              { invoices := db.tables.invoices ++
                  [⟨maxId (db.tables.invoices.map Invoice.id) db.tables.seqInvoices + 1,
                    trimmed form.customer, form.dateEdit.date.toString⟩]
                invoice_items := db.tables.invoice_items ++ newItems
                seqInvoices :=
                  maxId (db.tables.invoices.map Invoice.id) db.tables.seqInvoices + 1
                seqItems := seq }
            snapshot := none
            calls := calls }) ∧
      newItems.map (fun x => (x.invoice_id, x.content)) =
        form.grid.map (fun r =>
          (maxId (db.tables.invoices.map Invoice.id) db.tables.seqInvoices + 1, r.stored)) := by
  obtain ⟨hc, hg, hrows⟩ := hv
  obtain ⟨e1, e2, e3, e4, e5⟩ := he
  have hval := validateRows_of_passes env.indeterminate form.grid 0
    (fun r hr => (hrows r hr).passes)
  rw [save_unfold_ok env form db _ (by simpa using hc) (by simpa using hg) hval]
  have hnan : ∀ it ∈ form.grid.map Row.entry, (toDouble it.price).2.isNaN = false := by
    intro it hit
    obtain ⟨r, hr, rfl⟩ := List.mem_map.1 hit
    exact geZero_not_nan _ (hrows r hr).entry_stored.2
  obtain ⟨newItems, seq, calls, hins, hmap⟩ := insertItems_ok env.insertItemOk
    (maxId (db.tables.invoices.map Invoice.id) db.tables.seqInvoices + 1)
    (form.grid.map Row.entry) e3 0
    { tables := { db.tables with
        invoices := db.tables.invoices ++
          [⟨maxId (db.tables.invoices.map Invoice.id) db.tables.seqInvoices + 1,
            trimmed form.customer, form.dateEdit.date.toString⟩]
        seqInvoices := maxId (db.tables.invoices.map Invoice.id) db.tables.seqInvoices + 1 }
      snapshot := some db.tables
      calls := db.calls ++ [.transaction] ++ [.insertInvoice] } hnan
  refine ⟨newItems, seq, calls ++ [.commit], ?_, ?_⟩
  · simp only [Conn.transaction, e1, e5, Option.isNone_none, Bool.and_self, if_true,
      Conn.insertInvoice, e2]
    rw [hins]
    simp only [Conn.commit, e4, if_true]
  · rw [hmap, List.map_map]
    apply List.map_congr_left
    intro r hr
    simp only [Function.comp]
    rw [← (hrows r hr).entry_stored.1]

/-- C3. For a valid form and with every database call succeeding, Save reports
success and the tables afterwards are the tables before plus exactly one invoice row
(a fresh id larger than every id in the table, the trimmed customer name, the date as
`yyyy-MM-dd`) and exactly as many item rows as the grid has rows; every new item row
carries the id of the new invoice, and the new item rows hold, in grid order, the
values bound for the grid rows. No transaction is left open. -/
theorem save_adds_invoice_and_items (env : SaveEnv) (form : Form) (db : Conn)
    (hv : form.valid) (he : env.allOk db) :
    ∃ (newId : Int) (newItems : List InvoiceItem),
      (on_SaveInoviceButton_clicked env form db).1 = .saved ∧
      (on_SaveInoviceButton_clicked env form db).2.2.tables.invoices =
        db.tables.invoices ++
          [⟨newId, trimmed form.customer, form.dateEdit.date.toString⟩] ∧
      (∀ inv ∈ db.tables.invoices, inv.id < newId) ∧
      (on_SaveInoviceButton_clicked env form db).2.2.tables.invoice_items =
        db.tables.invoice_items ++ newItems ∧
      newItems.length = form.grid.length ∧
      (∀ it ∈ newItems, it.invoice_id = newId) ∧
      newItems.map InvoiceItem.content = form.grid.map Row.stored ∧
      (on_SaveInoviceButton_clicked env form db).2.2.snapshot = none := by
  obtain ⟨newItems, seq, calls, hres, hmap⟩ := save_valid_result env form db hv he
  rw [hres]
  refine ⟨maxId (db.tables.invoices.map Invoice.id) db.tables.seqInvoices + 1, newItems,
    rfl, rfl, ?_, rfl, ?_, ?_, ?_, rfl⟩
  · intro inv hinv
    have := (le_maxId (db.tables.invoices.map Invoice.id) db.tables.seqInvoices).2 inv.id
      (List.mem_map_of_mem _ hinv)
    omega
  · have := congrArg List.length hmap
    simpa using this
  · intro it hit
    have h1 : (it.invoice_id, it.content) ∈
        newItems.map (fun x => (x.invoice_id, x.content)) := List.mem_map_of_mem _ hit
    rw [hmap] at h1
    obtain ⟨x, _, hx⟩ := List.mem_map.1 h1
    exact (congrArg Prod.fst hx).symm
  · have h2 := congrArg (List.map Prod.snd) hmap
    simp only [List.map_map] at h2
    exact h2

theorem chipsAndSodaForm_valid : chipsAndSodaForm.valid := by
  refine ⟨by decide, by decide, ?_⟩
  intro r hr
  simp only [chipsAndSodaForm, exampleForm, List.mem_cons, List.mem_singleton,
    List.not_mem_nil, or_false] at hr
  rcases hr with rfl | rfl
  · exact ⟨_, _, _, rfl, by decide, ⟨by decide, by decide⟩, ⟨by decide, by decide⟩⟩
  · exact ⟨_, _, _, rfl, by decide, ⟨by decide, by decide⟩, ⟨by decide, by decide⟩⟩

/-- Witness for C3: the two rows of the specification, saved into the empty
database. -/
theorem save_adds_invoice_and_items_witness :
    ∃ (newId : Int) (newItems : List InvoiceItem),
      (on_SaveInoviceButton_clicked allSucceed chipsAndSodaForm emptyDatabase).1 = .saved ∧
      (on_SaveInoviceButton_clicked allSucceed chipsAndSodaForm
        emptyDatabase).2.2.tables.invoices =
        emptyDatabase.tables.invoices ++
          [⟨newId, trimmed chipsAndSodaForm.customer,
            chipsAndSodaForm.dateEdit.date.toString⟩] ∧
      (∀ inv ∈ emptyDatabase.tables.invoices, inv.id < newId) ∧
      (on_SaveInoviceButton_clicked allSucceed chipsAndSodaForm
        emptyDatabase).2.2.tables.invoice_items =
        emptyDatabase.tables.invoice_items ++ newItems ∧
      newItems.length = chipsAndSodaForm.grid.length ∧
      (∀ it ∈ newItems, it.invoice_id = newId) ∧
      newItems.map InvoiceItem.content = chipsAndSodaForm.grid.map Row.stored ∧
      (on_SaveInoviceButton_clicked allSucceed chipsAndSodaForm
        emptyDatabase).2.2.snapshot = none :=
  save_adds_invoice_and_items allSucceed chipsAndSodaForm emptyDatabase
    chipsAndSodaForm_valid ⟨rfl, rfl, fun _ => rfl, rfl, rfl⟩

/-- The same Save, evaluated: invoice 1 for `Bob` on 2024-02-29 and two items of
invoice 1, `Chips` (2 at 1.5) and `Soda` (1 at 0.99), in this order; the calls are the
start of the transaction, three inserts and the commit. -/
theorem save_chips_and_soda :
    on_SaveInoviceButton_clicked allSucceed chipsAndSodaForm emptyDatabase =
      (.saved,
        { customer := [], dateEdit := { exampleDateEdit with date := ⟨2025, 1, 1⟩ },
          grid := [] },
        { tables :=
            { invoices := [⟨1, "Bob".toList, "2024-02-29".toList⟩]
              invoice_items :=
                [⟨1, 1, "Chips".toList, 2, .fin false 6755399441055744 (-52)⟩,
                 ⟨2, 1, "Soda".toList, 1, .fin false 8917127262193582 (-53)⟩]
              seqInvoices := 1
              seqItems := 2 }
          snapshot := none
          calls := [.transaction, .insertInvoice, .insertItem, .insertItem, .commit] }) := by
  decide

/-! ## Load -/

theorem appendItemRows_eq (its : List InvoiceItem) :
    ∀ g : Grid, appendItemRows g its = g ++ its.map itemRow := by
  induction its with
  | nil => intro g; simp [appendItemRows]
  | cons it its ih => intro g; simp [appendItemRows, ih]

theorem lastInvoice_spec (l : List Invoice) :
    (l = [] → lastInvoice l = none) ∧
    (l ≠ [] →
      ∃ inv, lastInvoice l = some inv ∧ inv ∈ l ∧ ∀ x ∈ l, x.id ≤ inv.id) := by
  induction l with
  | nil => exact ⟨fun _ => rfl, fun h => absurd rfl h⟩
  | cons a as ih =>
    refine ⟨fun h => List.noConfusion h, fun _ => ?_⟩
    by_cases has : as = []
    · subst has
      exact ⟨a, rfl, List.mem_cons_self _ _, fun x hx => by simp at hx; rw [hx]⟩
    · obtain ⟨best, hb, hmem, hmax⟩ := ih.2 has
      rw [lastInvoice, hb]
      by_cases hle : best.id ≤ a.id
      · refine ⟨a, by simp [hle], List.mem_cons_self _ _, ?_⟩
        intro x hx
        rcases List.mem_cons.1 hx with rfl | hx
        · exact le_refl _
        · exact le_trans (hmax x hx) hle
      · refine ⟨best, by simp [hle], List.mem_cons_of_mem _ hmem, ?_⟩
        intro x hx
        rcases List.mem_cons.1 hx with rfl | hx
        · omega
        · exact hmax x hx

theorem variantToInt_of_fits (v : Int) (h : fitsInt v) : variantToInt v = v := by
  obtain ⟨h1, h2⟩ := h
  unfold variantToInt
  omega

theorem setDate_of_accepts (w : DateEdit) (d : QDate) (h : w.accepts d) :
    w.setDate d = { w with date := d } := by
  obtain ⟨h1, h2, h3⟩ := h
  simp [DateEdit.setDate, h1, h2, h3]

/-- Load of the most recent invoice when its id fits an `int`: with at least one
invoice and both queries succeeding, the customer field holds the customer of the
invoice with the largest id, the date edit has been set to the date that its date text
denotes, the previous rows are gone, and the grid holds one row per item whose
`invoice_id` is that largest id, in table order. -/
theorem load_most_recent_of_fits (env : LoadEnv) (form : Form) (db : Conn)
    (hne : db.tables.invoices ≠ []) (h1 : env.selectInvoiceOk = true)
    (h2 : env.selectItemsOk = true)
    (hfit : ∀ inv ∈ db.tables.invoices, fitsInt inv.id) :
    ∃ inv, inv ∈ db.tables.invoices ∧ (∀ x ∈ db.tables.invoices, x.id ≤ inv.id) ∧
      on_loadLastInvoice_clicked env form db =
        (.loaded,
          { customer := inv.customer_name
            dateEdit := form.dateEdit.setDate (QDate.fromString inv.date)
            grid := (db.tables.invoice_items.filter
              (fun it => it.invoice_id = inv.id)).map itemRow }) := by
  obtain ⟨inv, hl, hmem, hmax⟩ := (lastInvoice_spec db.tables.invoices).2 hne
  refine ⟨inv, hmem, hmax, ?_⟩
  simp only [on_loadLastInvoice_clicked, h1, h2, hl, Bool.not_true, Bool.false_eq_true,
    if_false, variantToInt_of_fits inv.id (hfit inv hmem), appendItemRows_eq, selectItems,
    List.nil_append]

/-- C8 as amended. With no row in table `invoices` and the query for the last invoice
succeeding, Load ends in the branch "nothing to load" (no failure is logged) and
leaves the form with an empty customer field, the date edit set to the current date,
and no rows, whatever the form held before. The date edit then shows the current date
whenever that date lies in its range. -/
theorem load_empty_database_clears_form (env : LoadEnv) (form : Form) (db : Conn)
    (hdb : db.tables.invoices = []) (hq : env.selectInvoiceOk = true) :
    on_loadLastInvoice_clicked env form db =
        (.nothingToLoad,
          { customer := [], dateEdit := form.dateEdit.setDate env.currentDate, grid := [] }) ∧
      (form.dateEdit.accepts env.currentDate →
        (form.dateEdit.setDate env.currentDate).date = env.currentDate) := by
  refine ⟨?_, fun ht => ?_⟩
  · simp only [on_loadLastInvoice_clicked, hq, hdb, lastInvoice, Bool.not_true,
      Bool.false_eq_true, if_false]
  · rw [setDate_of_accepts _ _ ht]

/-- Witness for C8 as amended: a filled form and the empty database; the current date,
1 January 2025, lies in the range of the date edit. -/
theorem load_empty_database_clears_form_witness :
    on_loadLastInvoice_clicked queriesSucceed filledForm emptyDatabase =
        (.nothingToLoad,
          { customer := [],
            dateEdit := filledForm.dateEdit.setDate queriesSucceed.currentDate,
            grid := [] }) ∧
      (filledForm.dateEdit.setDate queriesSucceed.currentDate).date = ⟨2025, 1, 1⟩ :=
  ⟨(load_empty_database_clears_form queriesSucceed filledForm emptyDatabase rfl rfl).1,
    (load_empty_database_clears_form queriesSucceed filledForm emptyDatabase rfl rfl).2
      ⟨by decide, by decide, by decide⟩⟩

/-- Counterexample to C8 as stated: table `invoices` has no rows, yet Load, whose
first query fails, logs the failure and leaves the filled form as it was (customer
`Bob`, one row). -/
theorem load_empty_database_query_failure :
    emptyDatabase.tables.invoices = [] ∧
      on_loadLastInvoice_clicked invoiceQueryFails filledForm emptyDatabase =
        (.invoiceQueryFailed, filledForm) ∧
      filledForm.customer ≠ [] ∧ filledForm.grid.length = 1 := by
  decide

/-- C7 at an id beyond `int`: the only invoice has id `2^31` and one item belongs to
it; both queries succeed. Load shows the customer of that invoice but an empty grid,
because the id is narrowed to the `int` value `-2^31` before the items are queried. -/
theorem load_large_id_shows_no_items :
    lastInvoice largeIdDatabase.tables.invoices =
        some ⟨2147483648, "Bob".toList, "2024-02-29".toList⟩ ∧
      (largeIdDatabase.tables.invoice_items.filter
        (fun it => it.invoice_id = 2147483648)).length = 1 ∧
      variantToInt 2147483648 = -2147483648 ∧
      on_loadLastInvoice_clicked queriesSucceed filledForm largeIdDatabase =
        (.loaded, { customer := "Bob".toList, dateEdit := exampleDateEdit, grid := [] }) := by
  decide

/-! ## Save followed by Load -/

theorem lastInvoice_append_new (new : Invoice) (l : List Invoice)
    (h : ∀ x ∈ l, x.id < new.id) : lastInvoice (l ++ [new]) = some new := by
  induction l with
  | nil => rfl
  | cons a as ih =>
    rw [List.cons_append, lastInvoice, ih (fun x hx => h x (List.mem_cons_of_mem _ hx))]
    have := h a (List.mem_cons_self _ _)
    simp only
    rw [if_neg (by omega)]

theorem setDate_range (w : DateEdit) (d : QDate) :
    (w.setDate d).minimumDate = w.minimumDate ∧ (w.setDate d).maximumDate = w.maximumDate := by
  unfold DateEdit.setDate
  split_ifs <;> exact ⟨rfl, rfl⟩

theorem setDate_setDate_own (w : DateEdit) (t : QDate) (h : w.accepts w.date) :
    (w.setDate t).setDate w.date = w := by
  obtain ⟨h1, h2, h3⟩ := h
  have hr := setDate_range w t
  rw [setDate_of_accepts (w.setDate t) w.date
    ⟨h1, by rw [hr.1]; exact h2, by rw [hr.2]; exact h3⟩]
  cases w with
  | mk date minimumDate maximumDate =>
    simp only at hr
    simp only [DateEdit.mk.injEq, true_and]
    exact hr

/-- Round trip of the parts that Save stores unchanged. For a valid form, on a
database in which every item refers to an existing invoice, when every database call
of Save and both queries of Load succeed, the date edit shows a date it accepts with a
year of at most four digits, and the id of the new invoice fits an `int`: Load ends
normally and the form then holds the trimmed customer name, the date edit exactly as
it was when Save was pressed, and one row per saved row, in the same order, showing
what the database holds for it; the name is the trimmed name of the saved row and the
quantity text reads as the same integer. -/
theorem save_then_load_round_trip (env : SaveEnv) (lenv : LoadEnv) (form : Form) (db : Conn)
    (hv : form.valid) (he : env.allOk db)
    (hdb : ∀ it ∈ db.tables.invoice_items, ∃ inv ∈ db.tables.invoices, inv.id = it.invoice_id)
    (hl : lenv.selectInvoiceOk = true ∧ lenv.selectItemsOk = true)
    (hd : form.dateEdit.accepts form.dateEdit.date ∧ form.dateEdit.date.year ≤ 9999)
    (hfit : fitsInt (maxId (db.tables.invoices.map Invoice.id) db.tables.seqInvoices + 1)) :
    ∃ loaded : Form,
      on_loadLastInvoice_clicked lenv (on_SaveInoviceButton_clicked env form db).2.1
        (on_SaveInoviceButton_clicked env form db).2.2 = (.loaded, loaded) ∧
      loaded.customer = trimmed form.customer ∧
      loaded.dateEdit = form.dateEdit ∧
      loaded.grid = form.grid.map Row.reloaded ∧
      loaded.grid.map (fun r => (r.name, r.quantity.map toInt)) =
        form.grid.map (fun r => (r.name.map trimmed, r.quantity.map toInt)) := by
  obtain ⟨newItems, seq, calls, hres, hmap⟩ := save_valid_result env form db hv he
  rw [hres]
  have hmax := le_maxId (db.tables.invoices.map Invoice.id) db.tables.seqInvoices
  have hlast := lastInvoice_append_new
    ⟨maxId (db.tables.invoices.map Invoice.id) db.tables.seqInvoices + 1,
      trimmed form.customer, form.dateEdit.date.toString⟩ db.tables.invoices
    (fun x hx => by
      have := hmax.2 x.id (List.mem_map_of_mem _ hx)
      simp only
      omega)
  have hnew : ∀ x ∈ newItems, x.invoice_id =
      maxId (db.tables.invoices.map Invoice.id) db.tables.seqInvoices + 1 := by
    intro x hx
    have h1 : (x.invoice_id, x.content) ∈
        newItems.map (fun x => (x.invoice_id, x.content)) := List.mem_map_of_mem _ hx
    rw [hmap] at h1
    obtain ⟨y, _, hy⟩ := List.mem_map.1 h1
    exact (congrArg Prod.fst hy).symm
  have hold : ∀ x ∈ db.tables.invoice_items, ¬ x.invoice_id =
      maxId (db.tables.invoices.map Invoice.id) db.tables.seqInvoices + 1 := by
    intro x hx
    obtain ⟨inv, hinv, hid⟩ := hdb x hx
    have := hmax.2 inv.id (List.mem_map_of_mem _ hinv)
    omega
  have hfilter : selectItems (db.tables.invoice_items ++ newItems)
      (maxId (db.tables.invoices.map Invoice.id) db.tables.seqInvoices + 1) = newItems := by
    unfold selectItems
    rw [List.filter_append, List.filter_eq_nil_iff.2 (fun x hx => by simpa using hold x hx),
      List.filter_eq_self.2 (fun x hx => by simpa using hnew x hx), List.nil_append]
  have hcontent : newItems.map InvoiceItem.content = form.grid.map Row.stored := by
    have h2 := congrArg (List.map Prod.snd) hmap
    simp only [List.map_map] at h2
    exact h2
  have hgrid : newItems.map itemRow = form.grid.map Row.reloaded := by
    have e1 : itemRow = (fun c : QString × Int × QDouble =>
        (⟨some c.1, some (numberInt c.2.1), some (variantDoubleToString c.2.2)⟩ : Row)) ∘
          InvoiceItem.content := rfl
    rw [e1, ← List.map_map, hcontent, List.map_map]
    rfl
  refine ⟨⟨trimmed form.customer,
    (form.dateEdit.setDate env.currentDate).setDate (QDate.fromString form.dateEdit.date.toString),
    newItems.map itemRow⟩, ?_, rfl, ?_, hgrid, ?_⟩
  · simp only [on_loadLastInvoice_clicked, hl.1, hl.2, hlast, Bool.not_true, Bool.false_eq_true,
      if_false, variantToInt_of_fits _ hfit, hfilter, appendItemRows_eq, List.nil_append]
  · simp only
    rw [fromString_toString _ hd.1.1 hd.2, setDate_setDate_own _ _ hd.1]
  · simp only
    rw [hgrid, List.map_map]
    apply List.map_congr_left
    intro r hr
    obtain ⟨n, q, p, rfl, _, ⟨hq1, _⟩, _⟩ := hv.2.2 r hr
    simp only [Function.comp, Row.reloaded, Row.stored, Option.getD_some, Option.map_some']
    rw [toInt_numberInt _ (toInt_range q).1 (toInt_range q).2, ← hq1]

/-- Witness: the two rows of the specification, saved into the empty database and
loaded again. -/
theorem save_then_load_round_trip_witness :
    ∃ loaded : Form,
      on_loadLastInvoice_clicked queriesSucceed
        (on_SaveInoviceButton_clicked allSucceed chipsAndSodaForm emptyDatabase).2.1
        (on_SaveInoviceButton_clicked allSucceed chipsAndSodaForm emptyDatabase).2.2 =
          (.loaded, loaded) ∧
      loaded.customer = trimmed chipsAndSodaForm.customer ∧
      loaded.dateEdit = chipsAndSodaForm.dateEdit ∧
      loaded.grid = chipsAndSodaForm.grid.map Row.reloaded ∧
      loaded.grid.map (fun r => (r.name, r.quantity.map toInt)) =
        chipsAndSodaForm.grid.map (fun r => (r.name.map trimmed, r.quantity.map toInt)) :=
  save_then_load_round_trip allSucceed queriesSucceed chipsAndSodaForm emptyDatabase
    chipsAndSodaForm_valid ⟨rfl, rfl, fun _ => rfl, rfl, rfl⟩
    (fun it hit => absurd hit (List.not_mem_nil it)) ⟨rfl, rfl⟩
    ⟨⟨by decide, by decide, by decide⟩, by decide⟩ ⟨by decide, by decide⟩

/-- The round-trip example of the specification, evaluated: rows `Chips, 2, 1.50` and
`Soda, 1, 0.99` for customer `Bob` come back as `Chips, 2, 1.5` and `Soda, 1, 0.99`
with the same customer and date; the price texts read as the doubles that were
entered. -/
theorem round_trip_chips_and_soda :
    on_loadLastInvoice_clicked queriesSucceed
        (on_SaveInoviceButton_clicked allSucceed chipsAndSodaForm emptyDatabase).2.1
        (on_SaveInoviceButton_clicked allSucceed chipsAndSodaForm emptyDatabase).2.2 =
      (.loaded, exampleForm "Bob" [textRow "Chips" "2" "1.5", textRow "Soda" "1" "0.99"]) ∧
    toDouble "1.5".toList = toDouble "1.50".toList := by
  decide

theorem bulkOrderForm_valid : bulkOrderForm.valid := by
  refine ⟨by decide, by decide, ?_⟩
  intro r hr
  simp only [bulkOrderForm, exampleForm, List.mem_singleton] at hr
  subst hr
  exact ⟨_, _, _, rfl, by decide, ⟨by decide, by decide⟩, ⟨by decide, by decide⟩⟩

/-- C4 at the price `12345.67`: the form with customer `Bob` and the one row
`Chips, 2, 12345.67` is valid; Save into the empty database succeeds, and Load then
shows customer and date as saved and the row `Chips, 2, 12345.7`. The price that
comes back is not the price that was entered, neither as text nor as a number: Save
formats the double with `QString::number(price)`, which keeps 6 significant digits,
before it binds it. -/
theorem round_trip_loses_price_digits :
    bulkOrderForm.valid ∧
      bulkOrderForm = exampleForm "Bob" [textRow "Chips" "2" "12345.67"] ∧
      (on_SaveInoviceButton_clicked allSucceed bulkOrderForm emptyDatabase).1 = .saved ∧
      on_loadLastInvoice_clicked queriesSucceed
          (on_SaveInoviceButton_clicked allSucceed bulkOrderForm emptyDatabase).2.1
          (on_SaveInoviceButton_clicked allSucceed bulkOrderForm emptyDatabase).2.2 =
        (.loaded, exampleForm "Bob" [textRow "Chips" "2" "12345.7"]) ∧
      numberDouble (toDouble "12345.67".toList).2 = "12345.7".toList ∧
      toDouble "12345.7".toList ≠ toDouble "12345.67".toList :=
  ⟨bulkOrderForm_valid, rfl, by decide, by decide, by decide, by decide⟩

/-- A name entered with blanks around it comes back trimmed, as Save stores the
trimmed name: ` Chips ` is shown as `Chips`. -/
theorem round_trip_trims_name :
    on_loadLastInvoice_clicked queriesSucceed
        (on_SaveInoviceButton_clicked allSucceed
          (exampleForm " Bob " [textRow " Chips " "2" "1.50"]) emptyDatabase).2.1
        (on_SaveInoviceButton_clicked allSucceed
          (exampleForm " Bob " [textRow " Chips " "2" "1.50"]) emptyDatabase).2.2 =
      (.loaded, exampleForm "Bob" [textRow "Chips" "2" "1.5"]) := by
  decide

/-- When the new invoice gets the id `2^31`, Load after Save shows an empty grid: the
id is narrowed to an `int` before the items are queried. -/
theorem round_trip_large_id :
    (on_SaveInoviceButton_clicked allSucceed chipsAndSodaForm lastIntIdDatabase).1 = .saved ∧
      on_loadLastInvoice_clicked queriesSucceed
          (on_SaveInoviceButton_clicked allSucceed chipsAndSodaForm lastIntIdDatabase).2.1
          (on_SaveInoviceButton_clicked allSucceed chipsAndSodaForm lastIntIdDatabase).2.2 =
        (.loaded, exampleForm "Bob" []) := by
  decide

/-! ## Invariants over sequences of user actions -/

theorem checkRow_ok_sound (junk : Nat → Nat → Bool) (i : Nat) (r : Row) (it : Item)
    (h : checkRow junk i r = .ok it) : it.sound := by
  unfold checkRow at h
  split_ifs at h with h1 h2 h3
  cases h
  simp only [Bool.or_eq_true, Bool.not_eq_true', decide_eq_true_eq, not_or, Bool.not_eq_false,
    not_le] at h2 h3
  refine ⟨?_, ?_, ?_⟩
  · cases hn : r.name with
    | none => rw [hn] at h1; simp at h1
    | some n =>
      rw [hn] at h1
      simp only [Option.getD_some, trimmed_idem]
      simpa using h1
  · simp only
    have hr : fitsInt (quantityCell junk i r).2 := by
      unfold quantityCell
      cases r.quantity with
      | none => exact ⟨by norm_num, by norm_num⟩
      | some t => exact toInt_range t
    rw [toInt_numberInt _ hr.1 hr.2]
    exact h2.2
  · simp only
    intro hnan
    have hp : (priceCell junk i r).2.isNaN = false := by
      cases hq : (priceCell junk i r).2 with
      | nan => rw [hq] at hnan; exact absurd hnan (by decide)
      | inf negative => rfl
      | fin negative m e => rfl
    exact rebound_price_geZero _ (by simpa using h3.2) hp

theorem validateRows_ok_sound (junk : Nat → Nat → Bool) (rows : List Row) :
    ∀ (i : Nat) (items : List Item), validateRows junk i rows = .ok items →
      ∀ it ∈ items, it.sound := by
  induction rows with
  | nil =>
    intro i items h it hit
    simp only [validateRows, Except.ok.injEq] at h
    rw [← h] at hit
    cases hit
  | cons r rs ih =>
    intro i items h it hit
    unfold validateRows at h
    cases hc : checkRow junk i r with
    | error e1 => rw [hc] at h; cases h
    | ok it1 =>
      rw [hc] at h
      cases hv : validateRows junk (i + 1) rs with
      | error e1 => rw [hv] at h; cases h
      | ok its =>
        rw [hv] at h
        cases h
        rcases List.mem_cons.1 hit with rfl | hmem
        · exact checkRow_ok_sound junk i r _ hc
        · exact ih _ _ hv it hmem

/-- Save either leaves the tables as they were, or has added one invoice with a
customer that is not blank and items that refer to it and satisfy the invariant of the
persisted data. -/
theorem save_db_cases (env : SaveEnv) (form : Form) (db : Conn) :
    (on_SaveInoviceButton_clicked env form db).2.2.tables = db.tables ∨
    ∃ (inv : Invoice) (newItems : List InvoiceItem),
      (on_SaveInoviceButton_clicked env form db).2.2.tables.invoices =
        db.tables.invoices ++ [inv] ∧
      (on_SaveInoviceButton_clicked env form db).2.2.tables.invoice_items =
        db.tables.invoice_items ++ newItems ∧
      trimmed inv.customer_name ≠ [] ∧
      ∀ x ∈ newItems, x.invoice_id = inv.id ∧ 0 < x.quantity ∧ x.price.geZero = true ∧
        trimmed x.item_name ≠ [] := by
  rcases save_outcome env form db with ⟨_, _, ht, _⟩ |
    ⟨_, _, _, _, _, _, _, hc, items, newId, newItems, hv, h1, h2, h3⟩
  · exact Or.inl ht
  · refine Or.inr ⟨⟨newId, trimmed form.customer, form.dateEdit.date.toString⟩, newItems,
      h1, h2, ?_, ?_⟩
    · simp only [trimmed_idem]; exact hc
    · intro x hx
      obtain ⟨a, b, it, hit1, e1, e2, e3⟩ := h3 x hx
      obtain ⟨s1, s2, s3⟩ := validateRows_ok_sound _ _ _ _ hv it hit1
      refine ⟨a, by rw [e2]; exact s2, ?_, by rw [e1]; exact s1⟩
      rw [e3] at b ⊢
      rw [storedReal_isNaN] at b
      exact storedReal_geZero _ (s3 b)

theorem step_preserves_wellFormed (w : World) (op : Op) (h : w.db.tables.wellFormed) :
    (step w op).db.tables.wellFormed := by
  cases op with
  | save env =>
    simp only [step]
    rcases save_db_cases env w.form w.db with hsame | ⟨inv, newItems, h1, h2, h3, h4⟩
    · rw [hsame]; exact h
    · obtain ⟨hitems, hinvs⟩ := h
      refine ⟨?_, ?_⟩
      · intro it hit
        rw [h2] at hit
        rw [h1]
        rcases List.mem_append.1 hit with hold | hnew
        · obtain ⟨⟨i0, hi0, hid⟩, r⟩ := hitems it hold
          exact ⟨⟨i0, List.mem_append_left _ hi0, hid⟩, r⟩
        · obtain ⟨a, r⟩ := h4 it hnew
          exact ⟨⟨inv, by simp, a.symm⟩, r⟩
      · intro i0 hi0
        rw [h1] at hi0
        rcases List.mem_append.1 hi0 with hold | hnew
        · exact hinvs i0 hold
        · simp only [List.mem_singleton] at hnew
          rw [hnew]; exact h3
  | addRow => exact h
  | removeSelected ranges => exact h
  | load env => exact h
  | editCustomer text => exact h
  | editDate d => exact h
  | editCell row column text => exact h

theorem run_preserves_wellFormed (ops : List Op) :
    ∀ w : World, w.db.tables.wellFormed → (run w ops).db.tables.wellFormed := by
  induction ops with
  | nil => intro w h; exact h
  | cons op ops ih =>
    intro w h
    exact ih (step w op) (step_preserves_wellFormed w op h)

/-- C9. Invariant of the persisted data: starting from the empty database, after any
sequence of user actions (adding rows, removing selected rows, saving with whatever
outcome of the database calls, loading, and editing the customer, the date and the
cells in between), every row of `invoice_items` refers to a row of `invoices`, has a
quantity above zero, a price of at least zero and a name that is not empty after
trimming, and every row of `invoices` has a customer name that is not empty after
trimming. -/
theorem persisted_data_invariant (dateEdit : DateEdit) (ops : List Op) :
    (run (startWorld dateEdit) ops).db.tables.wellFormed :=
  run_preserves_wellFormed ops (startWorld dateEdit)
    ⟨fun it hit => by simp [startWorld] at hit, fun inv hinv => by simp [startWorld] at hinv⟩

theorem removeRow_mem (g : Grid) (row : Int) : ∀ r ∈ removeRow g row, r ∈ g := by
  intro r hr
  unfold removeRow at hr
  split_ifs at hr
  · exact hr
  · exact (List.eraseIdx_sublist g _).subset hr

theorem removeRowsDown_mem (n : Nat) :
    ∀ (g : Grid) (row : Int), ∀ r ∈ removeRowsDown g row n, r ∈ g := by
  induction n with
  | zero => intro g row r hr; exact hr
  | succ n ih =>
    intro g row r hr
    rw [removeRowsDown] at hr
    exact removeRow_mem g row r (ih _ _ r hr)

theorem remove_mem (rs : List SelectionRange) :
    ∀ (g : Grid), ∀ r ∈ on_removeItemButton_clicked g rs, r ∈ g := by
  induction rs with
  | nil => intro g r hr; exact hr
  | cons x xs ih =>
    intro g r hr
    rw [on_removeItemButton_clicked] at hr
    exact removeRowsDown_mem _ g _ r (ih _ r hr)

theorem editCell_complete (g : Grid) :
    ∀ (row column : Nat) (text : QString), (∀ r ∈ g, r.complete) →
      ∀ r ∈ editCell g row column text, r.complete := by
  induction g with
  | nil => intro row column text _ r hr; simp [editCell] at hr
  | cons x xs ih =>
    intro row column text h r hr
    have hx := h x (List.mem_cons_self _ _)
    cases row with
    | zero =>
      rw [editCell] at hr
      rcases List.mem_cons.1 hr with rfl | hr
      · obtain ⟨h1, h2, h3⟩ := hx
        split_ifs
        · exact ⟨rfl, h2, h3⟩
        · exact ⟨h1, rfl, h3⟩
        · exact ⟨h1, h2, rfl⟩
        · exact ⟨h1, h2, h3⟩
      · exact h r (List.mem_cons_of_mem _ hr)
    | succ row =>
      rw [editCell] at hr
      rcases List.mem_cons.1 hr with rfl | hr
      · exact hx
      · exact ih row column text (fun y hy => h y (List.mem_cons_of_mem _ hy)) r hr

theorem save_form_cases (env : SaveEnv) (form : Form) (db : Conn) :
    (on_SaveInoviceButton_clicked env form db).2.1 = form ∨
      (on_SaveInoviceButton_clicked env form db).2.1.grid = [] := by
  rcases save_outcome env form db with ⟨_, hf, _⟩ | ⟨_, hf, _⟩
  · exact Or.inl hf
  · rw [hf]; exact Or.inr rfl

theorem load_grid_complete (env : LoadEnv) (form : Form) (db : Conn)
    (h : ∀ r ∈ form.grid, r.complete) :
    ∀ r ∈ (on_loadLastInvoice_clicked env form db).2.grid, r.complete := by
  unfold on_loadLastInvoice_clicked
  by_cases h1 : env.selectInvoiceOk = true
  · simp only [h1, Bool.not_true, Bool.false_eq_true, if_false]
    cases lastInvoice db.tables.invoices with
    | none => intro r hr; cases hr
    | some inv =>
      by_cases h2 : env.selectItemsOk = true
      · simp only [h2, Bool.not_true, Bool.false_eq_true, if_false]
        intro r hr
        simp only [appendItemRows_eq, List.nil_append] at hr
        obtain ⟨it, _, rfl⟩ := List.mem_map.1 hr
        exact ⟨rfl, rfl, rfl⟩
      · simp only [Bool.not_eq_true] at h2
        simp only [h2, Bool.not_false, if_true]
        intro r hr; cases hr
  · simp only [Bool.not_eq_true] at h1
    simp only [h1, Bool.not_false, if_true]
    exact h

theorem step_preserves_complete (w : World) (op : Op) (h : ∀ r ∈ w.form.grid, r.complete) :
    ∀ r ∈ (step w op).form.grid, r.complete := by
  cases op with
  | addRow =>
    intro r hr
    simp only [step, on_addItemButton_clicked] at hr
    rcases List.mem_append.1 hr with hr | hr
    · exact h r hr
    · simp only [List.mem_singleton] at hr
      rw [hr]
      exact ⟨rfl, rfl, rfl⟩
  | removeSelected ranges =>
    intro r hr
    exact h r (remove_mem ranges _ r hr)
  | save env =>
    intro r hr
    simp only [step] at hr
    rcases save_form_cases env w.form w.db with hs | hs
    · rw [hs] at hr; exact h r hr
    · rw [hs] at hr; cases hr
  | load env => exact load_grid_complete env w.form w.db h
  | editCustomer text => exact h
  | editDate d => exact h
  | editCell row column text => exact editCell_complete _ row column text h

theorem run_preserves_complete (ops : List Op) :
    ∀ w : World, (∀ r ∈ w.form.grid, r.complete) →
      ∀ r ∈ (run w ops).form.grid, r.complete := by
  induction ops with
  | nil => intro w h; exact h
  | cons op ops ih =>
    intro w h
    exact ih (step w op) (step_preserves_complete w op h)

theorem checkRow_junk_irrelevant (junk junk1 : Nat → Nat → Bool) (i : Nat) (r : Row)
    (h : r.complete) : checkRow junk1 i r = checkRow junk i r := by
  obtain ⟨_, h2, h3⟩ := h
  obtain ⟨q, hq⟩ := Option.isSome_iff_exists.1 h2
  obtain ⟨p, hp⟩ := Option.isSome_iff_exists.1 h3
  simp only [checkRow, quantityCell, priceCell, hq, hp]

theorem validateRows_junk_irrelevant (junk junk1 : Nat → Nat → Bool) (rows : List Row) :
    ∀ i, (∀ r ∈ rows, r.complete) →
      validateRows junk1 i rows = validateRows junk i rows := by
  induction rows with
  | nil => intro i _; rfl
  | cons r rs ih =>
    intro i h
    rw [validateRows, validateRows, checkRow_junk_irrelevant junk junk1 i r
      (h r (List.mem_cons_self _ _)), ih (i + 1) (fun x hx => h x (List.mem_cons_of_mem _ hx))]

/-- C10. Well-formedness of the grid: starting from the empty table, after any
sequence of user actions (adding rows, removing selected rows, saving, loading, and
editing the customer, the date and the cells in between), every row has an item in
each of its three cells. So the validation loop of Save reads the quantity and the
price of every row from the text of its cell (`toInt`, `toDouble`, which assign the
flags `quantityOk` and `priceOk`), never takes the branch for a missing cell, and the
outcome of Save does not depend on what an unassigned flag would hold. -/
theorem grid_cells_always_present (dateEdit : DateEdit) (ops : List Op) :
    (∀ r ∈ (run (startWorld dateEdit) ops).form.grid, r.complete) ∧
    (∀ r ∈ (run (startWorld dateEdit) ops).form.grid,
      ∀ (junk : Nat → Nat → Bool) (i : Nat),
        (∃ t, r.quantity = some t ∧ quantityCell junk i r = toInt t) ∧
        (∃ t, r.price = some t ∧ priceCell junk i r = toDouble t)) ∧
    (∀ (env : SaveEnv) (junk : Nat → Nat → Bool),
      on_SaveInoviceButton_clicked { env with indeterminate := junk }
          (run (startWorld dateEdit) ops).form (run (startWorld dateEdit) ops).db =
        on_SaveInoviceButton_clicked env
          (run (startWorld dateEdit) ops).form (run (startWorld dateEdit) ops).db) := by
  have hc : ∀ r ∈ (run (startWorld dateEdit) ops).form.grid, r.complete :=
    run_preserves_complete ops (startWorld dateEdit) (fun r hr => by cases hr)
  refine ⟨hc, ?_, ?_⟩
  · intro r hr junk i
    obtain ⟨_, h2, h3⟩ := hc r hr
    obtain ⟨q, hq⟩ := Option.isSome_iff_exists.1 h2
    obtain ⟨p, hp⟩ := Option.isSome_iff_exists.1 h3
    exact ⟨⟨q, hq, by simp [quantityCell, hq]⟩, ⟨p, hp, by simp [priceCell, hp]⟩⟩
  · intro env junk
    simp only [on_SaveInoviceButton_clicked]
    rw [validateRows_junk_irrelevant env.indeterminate junk _ 0 hc]

/-- Outside the invariant the flag matters: for a row whose price cell is missing,
the check of the price reads a flag that was never assigned; if it happens to hold
`true` the row is accepted with the price text `0`, if `false` it is rejected. -/
theorem missing_price_cell_depends_on_flag :
    checkRow (fun _ _ => true) 0 ⟨some "Chips".toList, some "2".toList, none⟩ =
        .ok ⟨"Chips".toList, "2".toList, "0".toList⟩ ∧
      checkRow (fun _ _ => false) 0 ⟨some "Chips".toList, some "2".toList, none⟩ =
        .error (.priceInvalid 1) :=
  ⟨rfl, rfl⟩

end SnackShop
